import Mathlib

/-!
# fcache: a filesystem-backed cache of function results

A shallow embedding of `main.go` of `opensvc/fcache` and the properties of it
that the specification states.

Go strings and byte slices are carried as lists of characters, one list
element per byte.  The only bytes the program inspects are the ASCII path
separator and the ASCII replacement token, so nothing depends on the carrier.
-/

namespace Fcache

/-! ## Strings -/

/-- A Go `string`: an immutable sequence of bytes. -/
abbrev GoString := List Char

/-- The contents of a Go `[]byte`. -/
abbrev Bytes := List Char

/-- Scanning loop of `strings.Replace` for a non-empty pattern: `skip` counts
the bytes of a pattern occurrence that are still to be stepped over. -/
def replaceFrom (old new : GoString) : Nat → GoString → GoString
  | _, [] => []
  | skip + 1, _ :: cs => replaceFrom old new skip cs
  | 0, c :: cs =>
    if old.isPrefixOf (c :: cs) then new ++ replaceFrom old new (old.length - 1) cs
    else c :: replaceFrom old new 0 cs

/-- Go's `strings.ReplaceAll(s, old, new)`: every non-overlapping occurrence
of `old`, found from the left, is replaced by `new`.  An empty `old` matches
before every character and at the end. -/
def ReplaceAll (s old new : GoString) : GoString :=
  if old = new then s
  else if old = [] then new ++ s.flatMap (fun c => c :: new)
  else replaceFrom old new 0 s

/-- The escape token that stands for a path separator in a cache key. -/
def slashToken : GoString := "(slash)".toList

/-- Source: `func normalize(name string) string`. -/
def normalize (name : GoString) : GoString :=
  ReplaceAll name "/".toList slashToken

/-! ## Paths (`path/filepath` on a Unix system) -/

/-- Splitting loop: `cur` is the element being read, reversed. -/
def splitSlashAux : GoString → GoString → List GoString
  | cur, [] => [cur.reverse]
  | cur, c :: cs =>
    if c = '/' then cur.reverse :: splitSlashAux [] cs
    else splitSlashAux (c :: cur) cs

/-- The elements of a path: the pieces between separators. -/
def splitSlash (path : GoString) : List GoString :=
  splitSlashAux [] path

/-- One step of the element loop of `filepath.Clean`.  `stack` is the output
so far, last element first.  An empty element and `.` are dropped; `..`
removes the last real element, is kept when the path is relative and nothing
can be removed, and is dropped at the root. -/
def cleanStep (rooted : Bool) (stack : List GoString) (e : GoString) : List GoString :=
  if e = [] ∨ e = ['.'] then stack
  else if e = ['.', '.'] then
    match stack with
    | [] => if rooted then [] else [e]
    | top :: rest => if top = ['.', '.'] then e :: top :: rest else rest
  else e :: stack

/-- Joins path elements with the separator. -/
def joinSlash : List GoString → GoString
  | [] => []
  | [e] => e
  | e :: f :: rest => e ++ '/' :: joinSlash (f :: rest)

/-- Go's `filepath.Clean`: the shortest path name equivalent to `path` by
purely lexical processing. -/
def Clean (path : GoString) : GoString :=
  if path = [] then ['.']
  else
    let rooted := path.head? = some '/'
    let stack := (splitSlash path).foldl (cleanStep rooted) []
    if rooted then '/' :: joinSlash stack.reverse
    else if stack = [] then ['.']
    else joinSlash stack.reverse

/-- Go's `filepath.Join` for two elements: empty elements are ignored and the
result is cleaned; the join of two empty elements is the empty string. -/
def Join (a b : GoString) : GoString :=
  if a ≠ [] then Clean (a ++ '/' :: b)
  else if b ≠ [] then Clean b
  else []

/-- Go's `filepath.Dir`: all but the last element of `path`, cleaned. -/
def Dir (path : GoString) : GoString :=
  Clean ((path.reverse.dropWhile (fun c => c ≠ '/')).reverse)

/-- Go's `filepath.Base`: the last element of `path`, trailing separators
removed first. -/
def Base (path : GoString) : GoString :=
  if path = [] then ['.']
  else
    let p := path.reverse.dropWhile (fun c => c = '/')
    if p = [] then ['/']
    else (p.takeWhile (fun c => c ≠ '/')).reverse

/-- Source: `func cacheFile(cacheDir, name string) string`. -/
def cacheFile (cacheDir name : GoString) : GoString :=
  Join cacheDir name ++ ".out".toList

/-- The path of the cache entry of signature `sig` in directory `dir`, as
`Output` and `Clear` compute it. -/
def entryPath (dir sig : GoString) : GoString :=
  cacheFile dir (normalize sig)

/-! ## Values the program exchanges with its environment -/

/-- A Go `error` value.  `notExist` is what `os.IsNotExist` reports for it. -/
structure GoError where
  msg : String
  notExist : Bool
deriving DecidableEq, Repr

/-- Go's `os.IsNotExist`; a nil error is not a not-exist error. -/
def IsNotExist (err : Option GoError) : Bool :=
  match err with
  | some e => e.notExist
  | none => false

/-- How a Go call ends: it returns a value, or it panics. -/
inductive Outcome (α : Type) where
  | returned (v : α)
  | panicked
deriving DecidableEq, Repr

/-- Source: `type Outputter interface`.  The computation is an injected
capability; it is represented by what its `Output()` call returns: the bytes
(`none` is a nil slice) and the error (`none` is a nil error). -/
structure Outputter where
  Output : Option Bytes × Option GoError

/-- Source: `type Locker interface`.  The lock is an injected capability,
represented by what `Lock(duration, label)` and `UnLock()` return. -/
structure Locker where
  Lock : Nat → GoString → Option GoError
  UnLock : Option GoError

/-! ## The filesystem -/

/-- What a path names: a regular file with its contents, or a directory. -/
inductive Node where
  | file (content : Bytes)
  | dir
deriving DecidableEq, Repr

/-- The filesystem: what each cleaned path names, if anything.  Paths are
compared lexically; the working directory and links are outside the model. -/
abbrev FS := GoString → Option Node

/-- The result of `os.Stat` that the program looks at. -/
structure FileInfo where
  isDir : Bool
deriving DecidableEq, Repr

/-- Path `p` lies strictly below directory `d` (both cleaned).  Below the
root lies every other rooted path; below the current directory `.` lies every
relative path that does not start by going up; below any other directory lie
the paths that extend it by a separator. -/
def isUnder (d p : GoString) : Bool :=
  if d = ['/'] then p != d && p.head? == some '/'
  else if d = ['.'] then
    p != [] && p != ['.'] && p.head? != some '/' && p.takeWhile (fun c => c != '/') != ['.', '.']
  else (d ++ ['/']).isPrefixOf p

/-- The contents of the regular file at `path`, if there is one. -/
def FS.fileAt (fs : FS) (path : GoString) : Option Bytes :=
  match fs (Clean path) with
  | some (.file b) => some b
  | _ => none

/-- The tree after a successful `os.MkdirAll(path)`: `path` and every
ancestor that was absent are now directories; nothing that existed changes. -/
def FS.mkdirAll (fs : FS) (path : GoString) : FS :=
  fun p =>
    match fs p with
    | some n => some n
    | none => if p = Clean path ∨ isUnder p (Clean path) = true then some .dir else none

/-- The tree after a successful write of `data` to the file at `path`. -/
def FS.write (fs : FS) (path : GoString) (data : Bytes) : FS :=
  fun p => if p = Clean path then some (.file data) else fs p

/-- The tree after a successful `os.Remove(path)`. -/
def FS.remove (fs : FS) (path : GoString) : FS :=
  fun p => if p = Clean path then none else fs p

/-- The tree after a successful `os.RemoveAll(path)`: `path` and everything
below it are gone. -/
def FS.removeAll (fs : FS) (path : GoString) : FS :=
  fun p => if p = Clean path ∨ isUnder (Clean path) p = true then none else fs p

/-- The failures the environment injects during one call of the package.
Filesystem primitives behave as the tree dictates unless a fault is set.
* `mkdirAllErr i`: what the `i`-th call of `mkdirAll` returns (`none`: nil);
* `statFault`: `os.Stat` fails with an error other than not-exist.  This
  field carries every such error, whether the environment causes it
  (permission denied) or the path itself does (a name longer than the
  filesystem allows, a path that runs through a regular file): the lookup in
  the tree derives the not-exist error only;
* `readFault`: `ioutil.ReadFile` fails, returning the bytes read so far;
* `writeFault`: `ioutil.WriteFile` fails; `writeLeaves` is what the failed
  call leaves at the path: nothing new (`none`), or the file it had already
  created or truncated, empty or holding a part of the data (`some b`);
* `removeFault`, `removeAllFault`: the call fails and leaves the tree as it
  was. -/
structure Env where
  mkdirAllErr : Nat → Option GoError
  statFault : Option String
  readFault : Option (Option Bytes × GoError)
  writeFault : Option GoError
  removeFault : Option GoError
  removeAllFault : Option GoError
  writeLeaves : Option Bytes

/-- An environment without faults. -/
def Env.ok : Env := ⟨fun _ => none, none, none, none, none, none, none⟩

def errNotExist : GoError := ⟨"no such file or directory", true⟩

def errIsDir : GoError := ⟨"is a directory", false⟩

/-- Go's `os.Stat`: the file info with a nil error, or no info with the error.
An error other than not-exist comes from `statFault` alone, also when the
path is its cause. -/
def Stat (env : Env) (fs : FS) (path : GoString) : Option FileInfo × Option GoError :=
  match env.statFault with
  | some m => (none, some ⟨m, false⟩)
  | none =>
    match fs (Clean path) with
    | none => (none, some errNotExist)
    | some .dir => (some ⟨true⟩, none)
    | some (.file _) => (some ⟨false⟩, none)

/-- Go's `ioutil.ReadFile`. -/
def ReadFile (env : Env) (fs : FS) (path : GoString) : Option Bytes × Option GoError :=
  match env.readFault with
  | some (data, e) => (data, some e)
  | none =>
    match fs (Clean path) with
    | none => (none, some errNotExist)
    | some .dir => (some [], some errIsDir)
    | some (.file b) => (some b, none)

/-- Go's `ioutil.WriteFile(path, data, 0600)`: the error and the tree after.
A nil slice is written as no bytes.  The call opens the file, creating or
truncating it, and then writes, so a call that fails may leave the file
behind, unless the path is a directory, which cannot be opened for writing. -/
def WriteFile (env : Env) (fs : FS) (path : GoString) (data : Option Bytes) :
    Option GoError × FS :=
  match env.writeFault with
  | some e =>
    (some e,
      match env.writeLeaves, fs (Clean path) with
      | some _, some .dir => fs
      | some b, _ => fs.write path b
      | none, _ => fs)
  | none =>
    match fs (Clean path) with
    | some .dir => (some errIsDir, fs)
    | _ => (none, fs.write path (data.getD []))

/-- Go's `os.Remove`. -/
def Remove (env : Env) (fs : FS) (path : GoString) : Option GoError × FS :=
  match env.removeFault with
  | some e => (some e, fs)
  | none =>
    match fs (Clean path) with
    | none => (some errNotExist, fs)
    | some _ => (none, fs.remove path)

/-- The final element of `path` is `.`; `os.RemoveAll` refuses such a path. -/
def endsWithDot (path : GoString) : Bool :=
  path == ['.'] || (['.', '/'] : GoString).isPrefixOf path.reverse

def errInvalid : GoError := ⟨"invalid argument", false⟩

/-- Go's `os.RemoveAll`: the empty path is left alone with a nil error, a
path whose final element is `.` is refused, and removing what does not exist
is a success. -/
def RemoveAll (env : Env) (fs : FS) (path : GoString) : Option GoError × FS :=
  if path = [] then (none, fs)
  else if endsWithDot path then (some errInvalid, fs)
  else
    match env.removeAllFault with
    | some e => (some e, fs)
    | none => (none, fs.removeAll path)

/-- The label `Output` and `Clear` pass to `Lock`. -/
def lockLabel : GoString := "cache".toList

/-! ## Runs -/

/-- What a call does to its environment, in order. -/
inductive Event where
  | mkdirAll (path : GoString) (err : Option GoError)
  | sleep (ms : Nat)
  | lockP (name : GoString)
  | lock (duration : Nat) (label : GoString) (err : Option GoError)
  | unLock (err : Option GoError)
  | stat (path : GoString)
  | readFile (path : GoString)
  | output
  | writeFile (path : GoString) (data : Option Bytes)
  | remove (path : GoString)
  | removeAll (path : GoString)
deriving DecidableEq, Repr

/-- A finished call: what it gave back, the tree it leaves and what it did. -/
structure Run (α : Type) where
  ret : α
  fs : FS
  trace : List Event

/-! ## The program -/

/-- Source: `mkdirAllMaxRetries = 3`. -/
def mkdirAllMaxRetries : Nat := 3

/-- The `for` loop of `mkdirAllRetry`: `n` iterations remain, `i` is the loop
counter and `err` the named result so far. -/
def mkdirAllRetryLoop (env : Env) (path : GoString) :
    Nat → Nat → Option GoError → FS → Run (Option GoError)
  | 0, _, err, fs => ⟨err, fs, []⟩
  | n + 1, i, _, fs =>
    match env.mkdirAllErr i with
    | none => ⟨none, fs.mkdirAll path, [.mkdirAll path none]⟩
    | some e =>
      let r := mkdirAllRetryLoop env path n (i + 1) (some e) fs
      ⟨r.ret, r.fs, .mkdirAll path (some e) :: .sleep 10 :: r.trace⟩

/-- Source: `func mkdirAllRetry(path string) (err error)`. -/
def mkdirAllRetry (env : Env) (path : GoString) (fs : FS) : Run (Option GoError) :=
  mkdirAllRetryLoop env path mkdirAllMaxRetries 0 none fs

/-- Source: `func fileExist(path string) bool`.  When `os.Stat` fails with an
error that is not a not-exist error, `info` is nil and `info.IsDir()` panics. -/
def fileExist (env : Env) (fs : FS) (path : GoString) : Outcome Bool :=
  let st := Stat env fs path
  if IsNotExist st.2 then .returned false
  else
    match st.1 with
    | none => .panicked
    | some info => .returned (!info.isDir)

/-- Source: `func Output(o Outputter, sig string, dir string, lockDuration
time.Duration, lockP func(name string) Locker) (out []byte, err error)`.
The deferred `UnLock` runs on every exit once the lock is held, a panic
included, and its result is dropped. -/
def Output (env : Env) (o : Outputter) (sig dir : GoString) (lockDuration : Nat)
    (lockP : GoString → Locker) (fs : FS) : Run (Outcome (Option Bytes × Option GoError)) :=
  let m := mkdirAllRetry env dir fs
  match m.ret with
  | some e => ⟨.returned (none, some e), m.fs, m.trace⟩
  | none =>
    let sig := normalize sig
    let lock := lockP sig
    match lock.Lock lockDuration lockLabel with
    | some e =>
      ⟨.returned o.Output, m.fs,
        m.trace ++ [.lockP sig, .lock lockDuration lockLabel (some e), .output]⟩
    | none =>
      let outfile := cacheFile dir sig
      let t := m.trace ++ [.lockP sig, .lock lockDuration lockLabel none, .stat outfile]
      match fileExist env m.fs outfile with
      | .panicked => ⟨.panicked, m.fs, t ++ [.unLock lock.UnLock]⟩
      | .returned true =>
        ⟨.returned (ReadFile env m.fs outfile), m.fs,
          t ++ [.readFile outfile, .unLock lock.UnLock]⟩
      | .returned false =>
        match o.Output.2 with
        | some e => ⟨.returned (none, some e), m.fs, t ++ [.output, .unLock lock.UnLock]⟩
        | none =>
          let w := WriteFile env m.fs outfile o.Output.1
          ⟨.returned (o.Output.1, w.1), w.2,
            t ++ [.output, .writeFile outfile o.Output.1, .unLock lock.UnLock]⟩

/-- Source: `func Clear(sig string, dir string, lockDuration time.Duration,
lockP func(name string) Locker) error`. -/
def Clear (env : Env) (sig dir : GoString) (lockDuration : Nat)
    (lockP : GoString → Locker) (fs : FS) : Run (Outcome (Option GoError)) :=
  let sig := normalize sig
  let lock := lockP sig
  match lock.Lock lockDuration lockLabel with
  | some e => ⟨.returned (some e), fs, [.lockP sig, .lock lockDuration lockLabel (some e)]⟩
  | none =>
    let outfile := cacheFile dir sig
    let t := [.lockP sig, .lock lockDuration lockLabel none, .stat outfile]
    match fileExist env fs outfile with
    | .panicked => ⟨.panicked, fs, t ++ [.unLock lock.UnLock]⟩
    | .returned false => ⟨.returned none, fs, t ++ [.unLock lock.UnLock]⟩
    | .returned true =>
      let r := Remove env fs outfile
      ⟨.returned r.1, r.2, t ++ [.remove outfile, .unLock lock.UnLock]⟩

/-- Source: `func Purge(cacheDir string) (err error)`. -/
def Purge (env : Env) (cacheDir : GoString) (fs : FS) : Run (Option GoError) :=
  let r := RemoveAll env fs cacheDir
  ⟨r.1, r.2, [.removeAll cacheDir]⟩

/-! ## Reading a trace -/

/-- The event is a call of `mkdirAll`. -/
def Event.isMkdirAll : Event → Bool
  | .mkdirAll _ _ => true
  | _ => false

/-- The event belongs to directory provisioning: a `mkdirAll` call or the
pause after a failed one. -/
def Event.isProvision : Event → Bool
  | .mkdirAll _ _ => true
  | .sleep _ => true
  | _ => false

/-- The event touches a cache entry: an existence check, a read, a write or a
removal. -/
def Event.isCacheAccess : Event → Bool
  | .stat _ => true
  | .readFile _ => true
  | .writeFile _ _ => true
  | .remove _ => true
  | .removeAll _ => true
  | _ => false

/-- The event changes a file: a write or a removal. -/
def Event.isMutation : Event → Bool
  | .writeFile _ _ => true
  | .remove _ => true
  | .removeAll _ => true
  | _ => false

/-- The event is a call of `Lock`, whatever it returned. -/
def Event.isLock : Event → Bool
  | .lock _ _ _ => true
  | _ => false

/-- The event is a call of `Lock` that acquired the lock. -/
def Event.isLockOk : Event → Bool
  | .lock _ _ none => true
  | _ => false

/-- The event is a call of the lock factory. -/
def Event.isLockP : Event → Bool
  | .lockP _ => true
  | _ => false

/-- The event is a call of `UnLock`. -/
def Event.isUnLock : Event → Bool
  | .unLock _ => true
  | _ => false

/-- The event is an existence check. -/
def Event.isStat : Event → Bool
  | .stat _ => true
  | _ => false

/-- The event is a read of an entry. -/
def Event.isRead : Event → Bool
  | .readFile _ => true
  | _ => false

/-- The event is a write of an entry. -/
def Event.isWrite : Event → Bool
  | .writeFile _ _ => true
  | _ => false

/-- The event belongs to the critical section: an existence check, a read, a
write or a removal of an entry, or the invocation of the computation. -/
def Event.isCritical : Event → Bool
  | .stat _ => true
  | .readFile _ => true
  | .writeFile _ _ => true
  | .remove _ => true
  | .output => true
  | _ => false

/-- The lock discipline of a trace.  Either no `Lock` call succeeded and
`UnLock` is never called; or the trace is `pre`, one successful `Lock`, `mid`,
one `UnLock`, and nothing more, where `pre` holds no event of the critical
section and neither `pre` nor `mid` holds a `Lock` or `UnLock` call. -/
def lockBracket (t : List Event) : Prop :=
  ((∀ ev ∈ t, ev.isLockOk = false) ∧ (∀ ev ∈ t, ev.isUnLock = false)) ∨
  ∃ pre mid duration label u,
    t = pre ++ Event.lock duration label none :: (mid ++ [Event.unLock u]) ∧
    (∀ ev ∈ pre, ev.isCritical = false ∧ ev.isLock = false ∧ ev.isUnLock = false) ∧
    (∀ ev ∈ mid, ev.isLock = false ∧ ev.isUnLock = false)

/-- The lock factory `lockP` with the results of `UnLock` replaced by `u`:
the same locks in everything but what releasing them returns. -/
def withUnLock (lockP : GoString → Locker) (u : GoString → Option GoError) :
    GoString → Locker :=
  fun name => ⟨(lockP name).Lock, u name⟩

/-- The number of times the computation was invoked. -/
def invocations (t : List Event) : Nat :=
  t.count .output

/-- The number of calls of `mkdirAll`. -/
def attempts (t : List Event) : Nat :=
  t.countP Event.isMkdirAll

/-! ## Path elements -/

/-- What `Clean` keeps on its stack is a real element: not empty, not `.`,
without a separator. -/
def realElem (e : GoString) : Prop :=
  e ≠ [] ∧ e ≠ ['.'] ∧ '/' ∉ e

instance (e : GoString) : Decidable (realElem e) := by
  unfold realElem
  infer_instance

/-- How `Clean` writes out its stack of elements, last element first. -/
def render (rooted : Bool) (stack : List GoString) : GoString :=
  if rooted then '/' :: joinSlash stack.reverse
  else if stack = [] then ['.']
  else joinSlash stack.reverse

/-- Below an element `..` of the stack there are only elements `..`. -/
def dotsBelow : List GoString → Prop
  | [] => True
  | top :: rest => (top = ['.', '.'] → ∀ x ∈ rest, x = ['.', '.']) ∧ dotsBelow rest

/-- The stacks `Clean` builds: real elements only, no `..` in a rooted path,
and in a relative path `..` only at the bottom. -/
def wfStack (rooted : Bool) (stack : List GoString) : Prop :=
  (∀ x ∈ stack, realElem x) ∧ (rooted = true → ∀ x ∈ stack, x ≠ ['.', '.']) ∧ dotsBelow stack

/-- The file named `name` directly inside the cleaned directory `d`: the
current directory is left out and the root is not doubled. -/
def childPath (d name : GoString) : GoString :=
  if d = ['.'] then name
  else if d = ['/'] then '/' :: name
  else d ++ '/' :: name

/-! ## Sample capabilities

The mock computation and lock factories of `fcache_test/main_test.go`, and
sample environments. -/

/-- Source: `mockOutputter` of the tests: a computation that returns the
given bytes and error. -/
def mockOutputter (output : Option Bytes) (err : Option GoError) : Outputter :=
  ⟨(output, err)⟩

/-- Source: `lockerP` of the tests: every lock is acquired. -/
def lockerP : GoString → Locker :=
  fun _ => ⟨fun _ _ => none, none⟩

/-- Source: `lockerPFailLock` of the tests: no lock is acquired. -/
def lockerPFailLock : GoString → Locker :=
  fun _ => ⟨fun _ _ => some ⟨"lock error", false⟩, none⟩

/-- A tree that holds nothing. -/
def emptyFS : FS := fun _ => none

/-- An environment in which every attempt to create a directory fails. -/
def envMkdirFails : Env := ⟨fun _ => some ⟨"fail after retries", false⟩, none, none, none, none, none, none⟩

/-- An environment in which writing a file fails. -/
def envWriteFails : Env := ⟨fun _ => none, none, none, some ⟨"no space left on device", false⟩, none, none, none⟩

/-- An environment in which writing a file fails after the file was created
or truncated, leaving it empty. -/
def envWriteTruncates : Env :=
  ⟨fun _ => none, none, none, some ⟨"no space left on device", false⟩, none, none, some []⟩

/-- An environment in which `os.Stat` is refused. -/
def envStatFails : Env := ⟨fun _ => none, some "permission denied", none, none, none, none, none⟩

/-- An environment in which `os.Stat` fails because the path runs through a
regular file. -/
def envNotDir : Env := ⟨fun _ => none, some "not a directory", none, none, none, none, none⟩

/-- An environment in which `os.Stat` fails because a name is too long. -/
def envNameTooLong : Env :=
  ⟨fun _ => none, some "file name too long", none, none, none, none, none⟩

/-- A tree in which `/etc/hostname` is a regular file. -/
def hostnameFS : FS := emptyFS.write "/etc/hostname".toList "host".toList

/-- A signature of 300 bytes. -/
def longSig : GoString := List.replicate 300 'a'

/-- An environment in which removing a file fails. -/
def envRemoveFails : Env :=
  ⟨fun _ => none, none, none, none, some ⟨"permission denied", false⟩, none, none⟩

/-- An environment in which reading a file fails after no bytes. -/
def envReadFails : Env :=
  ⟨fun _ => none, none, some (none, ⟨"input/output error", false⟩), none, none, none, none⟩

/-! # Properties -/

/-! ## Directory provisioning -/

theorem mkdirAllRetry_eq (env : Env) (path : GoString) (fs : FS) :
    mkdirAllRetry env path fs =
      match env.mkdirAllErr 0 with
      | none => ⟨none, fs.mkdirAll path, [.mkdirAll path none]⟩
      | some e0 =>
        match env.mkdirAllErr 1 with
        | none => ⟨none, fs.mkdirAll path,
            [.mkdirAll path (some e0), .sleep 10, .mkdirAll path none]⟩
        | some e1 =>
          match env.mkdirAllErr 2 with
          | none => ⟨none, fs.mkdirAll path,
              [.mkdirAll path (some e0), .sleep 10, .mkdirAll path (some e1), .sleep 10,
                .mkdirAll path none]⟩
          | some e2 => ⟨some e2, fs,
              [.mkdirAll path (some e0), .sleep 10, .mkdirAll path (some e1), .sleep 10,
                .mkdirAll path (some e2), .sleep 10]⟩ := by
  unfold mkdirAllRetry mkdirAllMaxRetries
  cases h0 : env.mkdirAllErr 0 <;> cases h1 : env.mkdirAllErr 1 <;>
    cases h2 : env.mkdirAllErr 2 <;> simp [mkdirAllRetryLoop, h0, h1, h2]

/-- A successful provisioning leaves the tree with the directory made. -/
theorem mkdirAllRetry_fs_of_ok (env : Env) (path : GoString) (fs : FS)
    (h : (mkdirAllRetry env path fs).ret = none) :
    (mkdirAllRetry env path fs).fs = fs.mkdirAll path := by
  rw [mkdirAllRetry_eq] at h ⊢
  cases h0 : env.mkdirAllErr 0 <;> cases h1 : env.mkdirAllErr 1 <;>
    cases h2 : env.mkdirAllErr 2 <;> simp_all

/-- Provisioning does nothing but call `mkdirAll` and pause. -/
theorem mkdirAllRetry_trace (env : Env) (path : GoString) (fs : FS) :
    ∀ ev ∈ (mkdirAllRetry env path fs).trace, ev.isProvision = true := by
  rw [mkdirAllRetry_eq]
  cases h0 : env.mkdirAllErr 0 <;> cases h1 : env.mkdirAllErr 1 <;>
    cases h2 : env.mkdirAllErr 2 <;> simp [Event.isProvision]

/-- C10: whatever the underlying directory creation returns on its successive
calls, `mkdirAllRetry` returns nil exactly when one of the first three calls
succeeds, makes at most three calls, makes its last call at the first success,
and after three failures returns the error of the third call. -/
theorem mkdirAllRetry_bounded (env : Env) (path : GoString) (fs : FS) :
    ((mkdirAllRetry env path fs).ret = none ↔
        ∃ i, i < 3 ∧ env.mkdirAllErr i = none) ∧
    attempts (mkdirAllRetry env path fs).trace ≤ 3 ∧
    (∀ k, k < 3 → env.mkdirAllErr k = none → (∀ j, j < k → env.mkdirAllErr j ≠ none) →
        attempts (mkdirAllRetry env path fs).trace = k + 1 ∧
        (mkdirAllRetry env path fs).trace.getLast? = some (.mkdirAll path none)) ∧
    ((∀ i, i < 3 → env.mkdirAllErr i ≠ none) →
        (mkdirAllRetry env path fs).ret = env.mkdirAllErr 2 ∧
        attempts (mkdirAllRetry env path fs).trace = 3) := by
  rw [mkdirAllRetry_eq]
  cases h0 : env.mkdirAllErr 0 with
  | none =>
    refine ⟨⟨fun _ => ⟨0, by omega, h0⟩, fun _ => rfl⟩, by simp [attempts, Event.isMkdirAll], ?_, ?_⟩
    · intro k hk hk0 hj
      have : k = 0 := by
        by_contra hne
        exact hj 0 (by omega) h0
      subst this
      simp [attempts, Event.isMkdirAll]
    · intro hall
      exact absurd h0 (hall 0 (by omega))
  | some e0 =>
    cases h1 : env.mkdirAllErr 1 with
    | none =>
      refine ⟨⟨fun _ => ⟨1, by omega, h1⟩, fun _ => rfl⟩, by simp [attempts, Event.isMkdirAll], ?_, ?_⟩
      · intro k hk hk0 hj
        have : k = 1 := by
          by_contra hne
          have : k = 0 ∨ k = 2 := by omega
          rcases this with rfl | rfl
          · simp [h0] at hk0
          · exact hj 1 (by omega) h1
        subst this
        simp [attempts, Event.isMkdirAll]
      · intro hall
        exact absurd h1 (hall 1 (by omega))
    | some e1 =>
      cases h2 : env.mkdirAllErr 2 with
      | none =>
        refine ⟨⟨fun _ => ⟨2, by omega, h2⟩, fun _ => rfl⟩, by simp [attempts, Event.isMkdirAll], ?_, ?_⟩
        · intro k hk hk0 hj
          have : k = 2 := by
            by_contra hne
            have : k = 0 ∨ k = 1 := by omega
            rcases this with rfl | rfl
            · simp [h0] at hk0
            · simp [h1] at hk0
          subst this
          simp [attempts, Event.isMkdirAll]
        · intro hall
          exact absurd h2 (hall 2 (by omega))
      | some e2 =>
        refine ⟨⟨fun h => by simp at h, ?_⟩, by simp [attempts, Event.isMkdirAll], ?_, ?_⟩
        · rintro ⟨i, hi, hn⟩
          have : i = 0 ∨ i = 1 ∨ i = 2 := by omega
          rcases this with rfl | rfl | rfl <;> simp_all
        · intro k hk hk0 _
          have : k = 0 ∨ k = 1 ∨ k = 2 := by omega
          rcases this with rfl | rfl | rfl <;> simp_all
        · intro _
          simp [attempts, Event.isMkdirAll]

/-- C9: when every attempt to create the directory fails, the last one with
error `d`, `Output` returns no bytes and `d`, leaves the tree as it was, and
does nothing but the three attempts and their pauses: the lock factory is not
called, no lock is taken, the computation is not invoked and no entry is
checked, read or written. -/
theorem Output_provisioning_failure (env : Env) (o : Outputter) (sig dir : GoString)
    (lockDuration : Nat) (lockP : GoString → Locker) (fs : FS) (d : GoError)
    (hfail : ∀ i, i < mkdirAllMaxRetries → env.mkdirAllErr i ≠ none)
    (hd : env.mkdirAllErr 2 = some d) :
    (Output env o sig dir lockDuration lockP fs).ret = .returned (none, some d) ∧
    (Output env o sig dir lockDuration lockP fs).fs = fs ∧
    (Output env o sig dir lockDuration lockP fs).trace =
      [.mkdirAll dir (env.mkdirAllErr 0), .sleep 10, .mkdirAll dir (env.mkdirAllErr 1),
        .sleep 10, .mkdirAll dir (some d), .sleep 10] ∧
    (∀ ev ∈ (Output env o sig dir lockDuration lockP fs).trace, ev.isProvision = true) ∧
    invocations (Output env o sig dir lockDuration lockP fs).trace = 0 := by
  have h0 := hfail 0 (by decide)
  have h1 := hfail 1 (by decide)
  obtain ⟨e0, he0⟩ := Option.ne_none_iff_exists'.mp h0
  obtain ⟨e1, he1⟩ := Option.ne_none_iff_exists'.mp h1
  simp [Output, mkdirAllRetry_eq, he0, he1, hd, Event.isProvision, invocations]

/-! ## Normalisation -/

theorem normalize_nil : normalize [] = [] := by
  simp [normalize, ReplaceAll, slashToken, replaceFrom]

theorem normalize_cons (c : Char) (cs : GoString) :
    normalize (c :: cs) = if c = '/' then slashToken ++ normalize cs else c :: normalize cs := by
  have hne : ¬ ("/".toList = slashToken) := by decide
  have hne2 : ¬ ("/".toList = ([] : GoString)) := by decide
  simp only [normalize, ReplaceAll, if_neg hne, if_neg hne2]
  by_cases hc : c = '/'
  · subst hc
    simp [replaceFrom, List.isPrefixOf]
  · simp [replaceFrom, List.isPrefixOf, hc]
    intro h
    exact absurd h.symm hc

/-- A character of the normal form that is not an opening bracket was copied
from the signature. -/
theorem normalize_head_ne_paren {c : Char} {r ys : GoString} (hc : c ≠ '(')
    (h : normalize ys = c :: r) : ∃ ys', ys = c :: ys' ∧ normalize ys' = r := by
  cases ys with
  | nil => simp [normalize_nil] at h
  | cons b bs =>
    rw [normalize_cons] at h
    by_cases hb : b = '/'
    · rw [if_pos hb] at h
      simp [slashToken] at h
      exact absurd h.1.symm hc
    · rw [if_neg hb] at h
      simp at h
      exact ⟨bs, by rw [h.1], h.2⟩

/-- A normal form that starts with the token comes from a separator or from
the token itself. -/
theorem token_prefix_of_normalize {b : Char} {bs r : GoString} (hb : b ≠ '/')
    (h : normalize (b :: bs) = slashToken ++ r) : slashToken <+: (b :: bs) := by
  rw [normalize_cons, if_neg hb] at h
  simp only [slashToken, String.toList] at h ⊢
  simp only [List.cons_append, List.nil_append, List.cons.injEq] at h
  obtain ⟨rfl, h0⟩ := h
  obtain ⟨y1, rfl, h1⟩ := normalize_head_ne_paren (by decide) h0
  obtain ⟨y2, rfl, h2⟩ := normalize_head_ne_paren (by decide) h1
  obtain ⟨y3, rfl, h3⟩ := normalize_head_ne_paren (by decide) h2
  obtain ⟨y4, rfl, h4⟩ := normalize_head_ne_paren (by decide) h3
  obtain ⟨y5, rfl, h5⟩ := normalize_head_ne_paren (by decide) h4
  obtain ⟨y6, rfl, _⟩ := normalize_head_ne_paren (by decide) h5
  exact ⟨y6, by simp⟩

theorem normalize_injective_aux : ∀ (x y : GoString),
    ¬ slashToken <:+: x → ¬ slashToken <:+: y → normalize x = normalize y → x = y := by
  intro x
  induction x with
  | nil =>
    intro y _ _ h
    cases y with
    | nil => rfl
    | cons b bs =>
      rw [normalize_nil, normalize_cons] at h
      by_cases hb : b = '/'
      · rw [if_pos hb] at h; simp [slashToken] at h
      · rw [if_neg hb] at h; simp at h
  | cons a as ih =>
    intro y hx hy h
    have hx' : ¬ slashToken <:+: as := fun hh => hx (hh.trans (List.suffix_cons a as).isInfix)
    cases y with
    | nil =>
      rw [normalize_nil, normalize_cons] at h
      by_cases ha : a = '/'
      · rw [if_pos ha] at h; simp [slashToken] at h
      · rw [if_neg ha] at h; simp at h
    | cons b bs =>
      have hy' : ¬ slashToken <:+: bs := fun hh => hy (hh.trans (List.suffix_cons b bs).isInfix)
      by_cases ha : a = '/'
      · by_cases hb : b = '/'
        · have h' := h
          rw [normalize_cons, normalize_cons, if_pos ha, if_pos hb] at h'
          rw [ha, hb, ih bs hx' hy' (List.append_cancel_left h')]
        · exfalso
          rw [normalize_cons a, if_pos ha] at h
          exact hy (token_prefix_of_normalize hb h.symm).isInfix
      · by_cases hb : b = '/'
        · exfalso
          rw [normalize_cons b, if_pos hb] at h
          exact hx (token_prefix_of_normalize ha h).isInfix
        · rw [normalize_cons, normalize_cons, if_neg ha, if_neg hb] at h
          simp only [List.cons.injEq] at h
          rw [h.1, ih bs hx' hy' h.2]

/-- C7: two signatures that do not contain the escape token and have the same
normal form are the same signature. -/
theorem normalize_injective (x y : GoString)
    (hx : ¬ slashToken <:+: x) (hy : ¬ slashToken <:+: y)
    (h : normalize x = normalize y) : x = y :=
  normalize_injective_aux x y hx hy h

/-! ## The tree -/

theorem fileAt_mkdirAll (fs : FS) (dir p : GoString) :
    (fs.mkdirAll dir).fileAt p = fs.fileAt p := by
  unfold FS.fileAt FS.mkdirAll
  cases h : fs (Clean p) with
  | none => by_cases hc : Clean p = Clean dir ∨ isUnder (Clean p) (Clean dir) = true <;> simp [hc]
  | some n => rfl

theorem mkdirAll_idem (fs : FS) (dir : GoString) :
    (fs.mkdirAll dir).mkdirAll dir = fs.mkdirAll dir := by
  funext p
  unfold FS.mkdirAll
  cases h : fs p with
  | none => by_cases hc : p = Clean dir ∨ isUnder p (Clean dir) = true <;> simp [hc]
  | some n => rfl

/-- Making a directory that exists, with all its ancestors, changes nothing. -/
theorem mkdirAll_of_exists (fs : FS) (dir : GoString)
    (h : ∀ p, (p = Clean dir ∨ isUnder p (Clean dir) = true) → fs p ≠ none) :
    fs.mkdirAll dir = fs := by
  funext p
  unfold FS.mkdirAll
  cases hp : fs p with
  | none =>
    by_cases hc : p = Clean dir ∨ isUnder p (Clean dir) = true
    · exact absurd hp (h p hc)
    · simp [hc]
  | some n => rfl

theorem mkdirAll_of_some (fs : FS) (dir p : GoString) (n : Node) (h : fs p = some n) :
    (fs.mkdirAll dir) p = some n := by
  simp [FS.mkdirAll, h]

theorem fileAt_write_self (fs : FS) (p : GoString) (b : Bytes) :
    (fs.write p b).fileAt p = some b := by
  simp [FS.fileAt, FS.write]

theorem fileAt_write_other (fs : FS) (p q : GoString) (b : Bytes) (h : Clean q ≠ Clean p) :
    (fs.write p b).fileAt q = fs.fileAt q := by
  simp [FS.fileAt, FS.write, h]

/-- Reading an entry that is a regular file, without a fault, gives its
contents. -/
theorem ReadFile_file (env : Env) (fs : FS) (p : GoString) (c : Bytes)
    (hread : env.readFault = none) (hf : fs (Clean p) = some (.file c)) :
    ReadFile env fs p = (some c, none) := by
  simp [ReadFile, hread, hf]

/-- A successful write stores the bytes and touches no other path. -/
theorem WriteFile_ok (env : Env) (fs : FS) (p : GoString) (data : Option Bytes)
    (h : (WriteFile env fs p data).1 = none) :
    (WriteFile env fs p data).2 = fs.write p (data.getD []) := by
  unfold WriteFile at h ⊢
  cases hw : env.writeFault with
  | some e => simp [hw] at h
  | none =>
    cases hf : fs (Clean p) with
    | none => simp
    | some n => cases n <;> simp_all

/-- A failed write that leaves nothing behind leaves the tree as it was. -/
theorem WriteFile_failed (env : Env) (fs : FS) (p : GoString) (data : Option Bytes)
    (w : GoError) (h : (WriteFile env fs p data).1 = some w) (hl : env.writeLeaves = none) :
    (WriteFile env fs p data).2 = fs := by
  unfold WriteFile at h ⊢
  cases hw : env.writeFault with
  | some e => simp [hl]
  | none =>
    cases hf : fs (Clean p) with
    | none => simp [hw, hf] at h
    | some n => cases n <;> simp_all

/-! ## The existence check -/

theorem fileExist_false_iff (env : Env) (fs : FS) (p : GoString) :
    fileExist env fs p = .returned false ↔ env.statFault = none ∧ fs.fileAt p = none := by
  unfold fileExist Stat FS.fileAt
  cases hs : env.statFault with
  | some m => simp [IsNotExist]
  | none =>
    cases hf : fs (Clean p) with
    | none => simp [IsNotExist, errNotExist]
    | some n => cases n <;> simp [IsNotExist]

theorem fileExist_true_iff (env : Env) (fs : FS) (p : GoString) :
    fileExist env fs p = .returned true ↔
      env.statFault = none ∧ ∃ b, fs (Clean p) = some (.file b) := by
  unfold fileExist Stat
  cases hs : env.statFault with
  | some m => simp [IsNotExist]
  | none =>
    cases hf : fs (Clean p) with
    | none => simp [IsNotExist, errNotExist]
    | some n => cases n <;> simp [IsNotExist]

/-- Creating the cache directory does not change what the existence check
reports: a path it creates is a directory. -/
theorem fileExist_mkdirAll (env : Env) (fs : FS) (dir p : GoString) :
    fileExist env (fs.mkdirAll dir) p = fileExist env fs p := by
  unfold fileExist Stat FS.mkdirAll
  cases hs : env.statFault with
  | some m => rfl
  | none =>
    cases hf : fs (Clean p) with
    | none =>
      by_cases hc : Clean p = Clean dir ∨ isUnder (Clean p) (Clean dir) = true <;>
        simp [hc, IsNotExist, errNotExist]
    | some n => rfl

/-! ## The paths through `Output` -/

theorem invocations_provision (env : Env) (dir : GoString) (fs : FS) (t : List Event) :
    invocations ((mkdirAllRetry env dir fs).trace ++ t) = invocations t := by
  have h0 : List.count Event.output (mkdirAllRetry env dir fs).trace = 0 := by
    rw [List.count_eq_zero]
    intro hmem
    have := mkdirAllRetry_trace env dir fs _ hmem
    simp [Event.isProvision] at this
  simp [invocations, List.count_append, h0]

theorem mutation_provision (env : Env) (dir : GoString) (fs : FS) :
    ∀ ev ∈ (mkdirAllRetry env dir fs).trace, ev.isMutation = false := by
  intro ev hev
  have := mkdirAllRetry_trace env dir fs _ hev
  cases ev <;> simp_all [Event.isProvision, Event.isMutation]

theorem access_provision (env : Env) (dir : GoString) (fs : FS) :
    ∀ ev ∈ (mkdirAllRetry env dir fs).trace, ev.isCacheAccess = false := by
  intro ev hev
  have := mkdirAllRetry_trace env dir fs _ hev
  cases ev <;> simp_all [Event.isProvision, Event.isCacheAccess]

theorem Output_lock_refused (env : Env) (o : Outputter) (sig dir : GoString)
    (lockDuration : Nat) (lockP : GoString → Locker) (fs : FS) (l : GoError)
    (hprov : (mkdirAllRetry env dir fs).ret = none)
    (hlock : (lockP (normalize sig)).Lock lockDuration lockLabel = some l) :
    Output env o sig dir lockDuration lockP fs =
      ⟨.returned o.Output, fs.mkdirAll dir,
        (mkdirAllRetry env dir fs).trace ++
          [.lockP (normalize sig), .lock lockDuration lockLabel (some l), .output]⟩ := by
  have hfs := mkdirAllRetry_fs_of_ok env dir fs hprov
  simp [Output, hprov, hlock, hfs]

theorem Output_hit (env : Env) (o : Outputter) (sig dir : GoString)
    (lockDuration : Nat) (lockP : GoString → Locker) (fs : FS)
    (hprov : (mkdirAllRetry env dir fs).ret = none)
    (hlock : (lockP (normalize sig)).Lock lockDuration lockLabel = none)
    (hexist : fileExist env fs (entryPath dir sig) = .returned true) :
    Output env o sig dir lockDuration lockP fs =
      ⟨.returned (ReadFile env (fs.mkdirAll dir) (entryPath dir sig)), fs.mkdirAll dir,
        (mkdirAllRetry env dir fs).trace ++
          [.lockP (normalize sig), .lock lockDuration lockLabel none,
            .stat (entryPath dir sig), .readFile (entryPath dir sig),
            .unLock (lockP (normalize sig)).UnLock]⟩ := by
  have hfs := mkdirAllRetry_fs_of_ok env dir fs hprov
  have hex : fileExist env (fs.mkdirAll dir) (cacheFile dir (normalize sig)) = .returned true := by
    rw [fileExist_mkdirAll]; exact hexist
  simp [Output, hprov, hlock, hfs, hex, entryPath]

theorem Output_miss_error (env : Env) (o : Outputter) (sig dir : GoString)
    (lockDuration : Nat) (lockP : GoString → Locker) (fs : FS) (e : GoError)
    (hprov : (mkdirAllRetry env dir fs).ret = none)
    (hlock : (lockP (normalize sig)).Lock lockDuration lockLabel = none)
    (hmiss : fileExist env fs (entryPath dir sig) = .returned false)
    (herr : o.Output.2 = some e) :
    Output env o sig dir lockDuration lockP fs =
      ⟨.returned (none, some e), fs.mkdirAll dir,
        (mkdirAllRetry env dir fs).trace ++
          [.lockP (normalize sig), .lock lockDuration lockLabel none,
            .stat (entryPath dir sig), .output, .unLock (lockP (normalize sig)).UnLock]⟩ := by
  have hfs := mkdirAllRetry_fs_of_ok env dir fs hprov
  have hex : fileExist env (fs.mkdirAll dir) (cacheFile dir (normalize sig)) = .returned false := by
    rw [fileExist_mkdirAll]; exact hmiss
  simp [Output, hprov, hlock, hfs, hex, herr, entryPath]

theorem Output_miss_computed (env : Env) (o : Outputter) (sig dir : GoString)
    (lockDuration : Nat) (lockP : GoString → Locker) (fs : FS)
    (hprov : (mkdirAllRetry env dir fs).ret = none)
    (hlock : (lockP (normalize sig)).Lock lockDuration lockLabel = none)
    (hmiss : fileExist env fs (entryPath dir sig) = .returned false)
    (hcomp : o.Output.2 = none) :
    Output env o sig dir lockDuration lockP fs =
      ⟨.returned (o.Output.1,
          (WriteFile env (fs.mkdirAll dir) (entryPath dir sig) o.Output.1).1),
        (WriteFile env (fs.mkdirAll dir) (entryPath dir sig) o.Output.1).2,
        (mkdirAllRetry env dir fs).trace ++
          [.lockP (normalize sig), .lock lockDuration lockLabel none,
            .stat (entryPath dir sig), .output, .writeFile (entryPath dir sig) o.Output.1,
            .unLock (lockP (normalize sig)).UnLock]⟩ := by
  have hfs := mkdirAllRetry_fs_of_ok env dir fs hprov
  have hex : fileExist env (fs.mkdirAll dir) (cacheFile dir (normalize sig)) = .returned false := by
    rw [fileExist_mkdirAll]; exact hmiss
  simp [Output, hprov, hlock, hfs, hex, hcomp, entryPath]

theorem Output_check_panics (env : Env) (o : Outputter) (sig dir : GoString)
    (lockDuration : Nat) (lockP : GoString → Locker) (fs : FS)
    (hprov : (mkdirAllRetry env dir fs).ret = none)
    (hlock : (lockP (normalize sig)).Lock lockDuration lockLabel = none)
    (hpanic : fileExist env fs (entryPath dir sig) = .panicked) :
    Output env o sig dir lockDuration lockP fs =
      ⟨.panicked, fs.mkdirAll dir,
        (mkdirAllRetry env dir fs).trace ++
          [.lockP (normalize sig), .lock lockDuration lockLabel none,
            .stat (entryPath dir sig), .unLock (lockP (normalize sig)).UnLock]⟩ := by
  have hfs := mkdirAllRetry_fs_of_ok env dir fs hprov
  have hex : fileExist env (fs.mkdirAll dir) (cacheFile dir (normalize sig)) = .panicked := by
    rw [fileExist_mkdirAll]; exact hpanic
  simp [Output, hprov, hlock, hfs, hex, entryPath]

/-- A call that finds a regular file at the entry path, with a tree that
behaves, returns the file's contents and does not invoke the computation. -/
theorem Output_returns_entry (env : Env) (o : Outputter) (sig dir : GoString)
    (lockDuration : Nat) (lockP : GoString → Locker) (fs : FS) (c : Bytes)
    (hprov : (mkdirAllRetry env dir fs).ret = none)
    (hlock : (lockP (normalize sig)).Lock lockDuration lockLabel = none)
    (hstat : env.statFault = none) (hread : env.readFault = none)
    (hf : fs (Clean (entryPath dir sig)) = some (.file c)) :
    (Output env o sig dir lockDuration lockP fs).ret = .returned (some c, none) ∧
    invocations (Output env o sig dir lockDuration lockP fs).trace = 0 := by
  have hexist : fileExist env fs (entryPath dir sig) = .returned true :=
    (fileExist_true_iff env fs _).mpr ⟨hstat, c, hf⟩
  rw [Output_hit env o sig dir lockDuration lockP fs hprov hlock hexist]
  refine ⟨?_, ?_⟩
  · simp only
    rw [ReadFile_file env _ _ c hread (mkdirAll_of_some fs dir _ _ hf)]
  · rw [invocations_provision]; simp [invocations]

/-! ## Output -/

/-- C1: if a first call of `Output` for signature `sig` in directory `dir`
takes the lock and returns bytes with a nil error, a second call for the same
signature and directory on the tree the first one left, which takes the lock
and whose existence check and read behave as the tree dictates, returns the
same bytes with a nil error and does not invoke its computation, whatever
that computation would return.  A nil slice counts as the empty byte string. -/
theorem Output_cache_hit (env1 env2 : Env) (o1 o2 : Outputter) (sig dir : GoString)
    (d1 d2 : Nat) (lockP1 lockP2 : GoString → Locker) (fs : FS) (out1 : Option Bytes)
    (hprov1 : (mkdirAllRetry env1 dir fs).ret = none)
    (hlock1 : (lockP1 (normalize sig)).Lock d1 lockLabel = none)
    (hret1 : (Output env1 o1 sig dir d1 lockP1 fs).ret = .returned (out1, none))
    (hprov2 : (mkdirAllRetry env2 dir (Output env1 o1 sig dir d1 lockP1 fs).fs).ret = none)
    (hlock2 : (lockP2 (normalize sig)).Lock d2 lockLabel = none)
    (hstat2 : env2.statFault = none) (hread2 : env2.readFault = none) :
    (Output env2 o2 sig dir d2 lockP2 (Output env1 o1 sig dir d1 lockP1 fs).fs).ret =
        .returned (some (out1.getD []), none) ∧
    invocations (Output env2 o2 sig dir d2 lockP2
      (Output env1 o1 sig dir d1 lockP1 fs).fs).trace = 0 := by
  cases hfe : fileExist env1 fs (entryPath dir sig) with
  | panicked =>
    rw [Output_check_panics env1 o1 sig dir d1 lockP1 fs hprov1 hlock1 hfe] at hret1
    simp at hret1
  | returned found =>
    cases found with
    | true =>
      have hO := Output_hit env1 o1 sig dir d1 lockP1 fs hprov1 hlock1 hfe
      obtain ⟨_, c, hc⟩ := (fileExist_true_iff env1 fs _).mp hfe
      have hc1 := mkdirAll_of_some fs dir _ _ hc
      rw [hO] at hret1 hprov2 ⊢
      simp only at hret1 hprov2 ⊢
      have hout : out1 = some c := by
        cases hrf : env1.readFault with
        | some f =>
          obtain ⟨data, e⟩ := f
          simp [ReadFile, hrf] at hret1
        | none =>
          rw [ReadFile_file env1 _ _ c hrf hc1] at hret1
          simp at hret1
          exact hret1.symm
      subst hout
      exact Output_returns_entry env2 o2 sig dir d2 lockP2 _ c hprov2 hlock2 hstat2 hread2 hc1
    | false =>
      cases hcomp : o1.Output.2 with
      | some e =>
        rw [Output_miss_error env1 o1 sig dir d1 lockP1 fs e hprov1 hlock1 hfe hcomp] at hret1
        simp at hret1
      | none =>
        have hO := Output_miss_computed env1 o1 sig dir d1 lockP1 fs hprov1 hlock1 hfe hcomp
        rw [hO] at hret1 hprov2 ⊢
        simp only at hret1 hprov2 ⊢
        simp only [Outcome.returned.injEq, Prod.mk.injEq] at hret1
        obtain ⟨hb, hw⟩ := hret1
        have hfs := WriteFile_ok env1 _ _ _ hw
        rw [hfs] at hprov2 ⊢
        rw [hb] at hprov2 ⊢
        exact Output_returns_entry env2 o2 sig dir d2 lockP2 _ (out1.getD []) hprov2 hlock2
          hstat2 hread2 (by simp [FS.write])

/-- C2: when the directory is provisioned, the lock is acquired, the existence
check finds no entry, the computation returns bytes `out` with a nil error
and the write succeeds, `Output` returns exactly `out` with a nil error after
invoking the computation once; afterwards the entry file of the signature
holds exactly those bytes (none, when `out` is a nil slice) and every other
file is as it was. -/
theorem Output_miss_persists (env : Env) (o : Outputter) (sig dir : GoString)
    (lockDuration : Nat) (lockP : GoString → Locker) (fs : FS) (out : Option Bytes)
    (hprov : (mkdirAllRetry env dir fs).ret = none)
    (hlock : (lockP (normalize sig)).Lock lockDuration lockLabel = none)
    (hmiss : fileExist env fs (entryPath dir sig) = .returned false)
    (hcomp : o.Output = (out, none))
    (hwrite : (WriteFile env (fs.mkdirAll dir) (entryPath dir sig) out).1 = none) :
    (Output env o sig dir lockDuration lockP fs).ret = .returned (out, none) ∧
    invocations (Output env o sig dir lockDuration lockP fs).trace = 1 ∧
    (Output env o sig dir lockDuration lockP fs).fs.fileAt (entryPath dir sig) =
      some (out.getD []) ∧
    (∀ p, Clean p ≠ Clean (entryPath dir sig) →
      (Output env o sig dir lockDuration lockP fs).fs.fileAt p = fs.fileAt p) := by
  have h2 : o.Output.2 = none := by rw [hcomp]
  have h1 : o.Output.1 = out := by rw [hcomp]
  rw [Output_miss_computed env o sig dir lockDuration lockP fs hprov hlock hmiss h2, h1]
  have hw := WriteFile_ok env (fs.mkdirAll dir) (entryPath dir sig) out hwrite
  refine ⟨by simp [hwrite], ?_, ?_, ?_⟩
  · rw [invocations_provision]; simp [invocations]
  · simp only [hw]
    exact fileAt_write_self _ _ _
  · intro p hp
    simp only [hw]
    rw [fileAt_write_other _ _ _ _ hp, fileAt_mkdirAll]

/-- C3: when the directory is provisioned and the lock is not acquired,
`Output` invokes the computation once and returns its bytes and its error as
they are; it checks, reads, writes and removes no entry, and no file is
created or changed, whether or not an entry for the signature exists. -/
theorem Output_lock_failure (env : Env) (o : Outputter) (sig dir : GoString)
    (lockDuration : Nat) (lockP : GoString → Locker) (fs : FS) (l : GoError)
    (hprov : (mkdirAllRetry env dir fs).ret = none)
    (hlock : (lockP (normalize sig)).Lock lockDuration lockLabel = some l) :
    (Output env o sig dir lockDuration lockP fs).ret = .returned o.Output ∧
    invocations (Output env o sig dir lockDuration lockP fs).trace = 1 ∧
    (∀ ev ∈ (Output env o sig dir lockDuration lockP fs).trace, ev.isCacheAccess = false) ∧
    (Output env o sig dir lockDuration lockP fs).fs = fs.mkdirAll dir ∧
    (∀ p, (Output env o sig dir lockDuration lockP fs).fs.fileAt p = fs.fileAt p) := by
  rw [Output_lock_refused env o sig dir lockDuration lockP fs l hprov hlock]
  refine ⟨rfl, ?_, ?_, rfl, fun p => fileAt_mkdirAll fs dir p⟩
  · rw [invocations_provision]; simp [invocations]
  · intro ev hev
    simp only [List.mem_append, List.mem_cons, List.mem_singleton, List.not_mem_nil,
      or_false] at hev
    rcases hev with hev | rfl | rfl | rfl
    · exact access_provision env dir fs ev hev
    all_goals rfl

/-- C4: when the lock is acquired, the existence check finds no entry and the
computation returns error `e`, `Output` returns no bytes and exactly `e`,
writes and removes nothing and leaves every file as it was; the tree differs
at most by the cache directory that provisioning made, and not at all when
that directory was there.  A following call for the same signature whose
computation succeeds invokes that computation once and returns its bytes. -/
theorem Output_computation_error (env : Env) (o : Outputter) (sig dir : GoString)
    (lockDuration : Nat) (lockP : GoString → Locker) (fs : FS) (e : GoError)
    (hprov : (mkdirAllRetry env dir fs).ret = none)
    (hlock : (lockP (normalize sig)).Lock lockDuration lockLabel = none)
    (hmiss : fileExist env fs (entryPath dir sig) = .returned false)
    (herr : o.Output.2 = some e) :
    (Output env o sig dir lockDuration lockP fs).ret = .returned (none, some e) ∧
    (Output env o sig dir lockDuration lockP fs).fs = fs.mkdirAll dir ∧
    (∀ p, (Output env o sig dir lockDuration lockP fs).fs.fileAt p = fs.fileAt p) ∧
    ((∀ p, (p = Clean dir ∨ isUnder p (Clean dir) = true) → fs p ≠ none) →
      (Output env o sig dir lockDuration lockP fs).fs = fs) ∧
    (∀ ev ∈ (Output env o sig dir lockDuration lockP fs).trace, ev.isMutation = false) ∧
    (∀ (env2 : Env) (o2 : Outputter) (d2 : Nat) (lockP2 : GoString → Locker),
      (mkdirAllRetry env2 dir (Output env o sig dir lockDuration lockP fs).fs).ret = none →
      (lockP2 (normalize sig)).Lock d2 lockLabel = none →
      env2.statFault = none →
      o2.Output.2 = none →
      invocations (Output env2 o2 sig dir d2 lockP2
        (Output env o sig dir lockDuration lockP fs).fs).trace = 1 ∧
      (Output env2 o2 sig dir d2 lockP2 (Output env o sig dir lockDuration lockP fs).fs).ret =
        .returned (o2.Output.1,
          (WriteFile env2 (fs.mkdirAll dir) (entryPath dir sig) o2.Output.1).1)) := by
  rw [Output_miss_error env o sig dir lockDuration lockP fs e hprov hlock hmiss herr]
  refine ⟨rfl, rfl, fun p => fileAt_mkdirAll fs dir p, fun h => mkdirAll_of_exists fs dir h,
    ?_, ?_⟩
  · intro ev hev
    simp only [List.mem_append, List.mem_cons, List.mem_singleton, List.not_mem_nil,
      or_false] at hev
    rcases hev with hev | rfl | rfl | rfl | rfl | rfl
    · exact mutation_provision env dir fs ev hev
    all_goals rfl
  · intro env2 o2 d2 lockP2 hprov2 hlock2 hstat2 hcomp2
    simp only at hprov2 ⊢
    have hnone : fs.fileAt (entryPath dir sig) = none :=
      ((fileExist_false_iff env fs _).mp hmiss).2
    have hmiss2 : fileExist env2 (fs.mkdirAll dir) (entryPath dir sig) = .returned false :=
      (fileExist_false_iff env2 _ _).mpr ⟨hstat2, by rw [fileAt_mkdirAll]; exact hnone⟩
    rw [Output_miss_computed env2 o2 sig dir d2 lockP2 _ hprov2 hlock2 hmiss2 hcomp2,
      mkdirAll_idem]
    refine ⟨?_, rfl⟩
    rw [invocations_provision]; simp [invocations]

/-- C5, as the code has it: when the lock is acquired, the existence check
finds no entry, the computation returns bytes with a nil error and writing
the entry fails with error `w`, `Output` returns `w` together with the bytes
the computation returned (nil only when the computation returned nil). -/
theorem Output_write_failure (env : Env) (o : Outputter) (sig dir : GoString)
    (lockDuration : Nat) (lockP : GoString → Locker) (fs : FS) (w : GoError)
    (hprov : (mkdirAllRetry env dir fs).ret = none)
    (hlock : (lockP (normalize sig)).Lock lockDuration lockLabel = none)
    (hmiss : fileExist env fs (entryPath dir sig) = .returned false)
    (hcomp : o.Output.2 = none)
    (hwrite : (WriteFile env (fs.mkdirAll dir) (entryPath dir sig) o.Output.1).1 = some w) :
    (Output env o sig dir lockDuration lockP fs).ret = .returned (o.Output.1, some w) := by
  rw [Output_miss_computed env o sig dir lockDuration lockP fs hprov hlock hmiss hcomp, hwrite]

/-- C8: when the lock is acquired, the existence check finds an entry file
and reading it fails with error `r`, `Output` returns `r` as its error, does
not invoke the computation, writes and removes nothing and leaves every file
as it was. -/
theorem Output_read_failure (env : Env) (o : Outputter) (sig dir : GoString)
    (lockDuration : Nat) (lockP : GoString → Locker) (fs : FS) (r : GoError)
    (hprov : (mkdirAllRetry env dir fs).ret = none)
    (hlock : (lockP (normalize sig)).Lock lockDuration lockLabel = none)
    (hexist : fileExist env fs (entryPath dir sig) = .returned true)
    (hread : (ReadFile env fs (entryPath dir sig)).2 = some r) :
    (Output env o sig dir lockDuration lockP fs).ret =
      .returned ((ReadFile env fs (entryPath dir sig)).1, some r) ∧
    invocations (Output env o sig dir lockDuration lockP fs).trace = 0 ∧
    (∀ ev ∈ (Output env o sig dir lockDuration lockP fs).trace, ev.isMutation = false) ∧
    (Output env o sig dir lockDuration lockP fs).fs = fs.mkdirAll dir ∧
    (∀ p, (Output env o sig dir lockDuration lockP fs).fs.fileAt p = fs.fileAt p) := by
  rw [Output_hit env o sig dir lockDuration lockP fs hprov hlock hexist]
  obtain ⟨_, c, hc⟩ := (fileExist_true_iff env fs _).mp hexist
  have hrd : ReadFile env (fs.mkdirAll dir) (entryPath dir sig) =
      ReadFile env fs (entryPath dir sig) := by
    simp [ReadFile, hc, mkdirAll_of_some fs dir _ _ hc]
  refine ⟨?_, ?_, ?_, rfl, fun p => fileAt_mkdirAll fs dir p⟩
  · simp only [hrd]
    rw [← hread]
  · rw [invocations_provision]; simp [invocations]
  · intro ev hev
    simp only [List.mem_append, List.mem_cons, List.mem_singleton, List.not_mem_nil,
      or_false] at hev
    rcases hev with hev | rfl | rfl | rfl | rfl | rfl
    · exact mutation_provision env dir fs ev hev
    all_goals rfl

/-! ## The entry path -/

theorem normalize_no_slash (s : GoString) : '/' ∉ normalize s := by
  induction s with
  | nil => simp [normalize_nil]
  | cons c cs ih =>
    rw [normalize_cons]
    by_cases hc : c = '/'
    · rw [if_pos hc]
      simp only [List.mem_append, not_or]
      exact ⟨by decide, ih⟩
    · rw [if_neg hc]
      simp only [List.mem_cons, not_or]
      exact ⟨fun h => hc h.symm, ih⟩

theorem normalize_eq_nil {s : GoString} (h : normalize s = []) : s = [] := by
  cases s with
  | nil => rfl
  | cons c cs =>
    rw [normalize_cons] at h
    by_cases hc : c = '/'
    · rw [if_pos hc] at h; simp [slashToken] at h
    · rw [if_neg hc] at h; simp at h

theorem normalize_eq_dot {s : GoString} (h : normalize s = ['.']) : s = ['.'] := by
  obtain ⟨t, rfl, ht⟩ := normalize_head_ne_paren (by decide) h
  rw [normalize_eq_nil ht]

theorem normalize_eq_dotdot {s : GoString} (h : normalize s = ['.', '.']) : s = ['.', '.'] := by
  obtain ⟨t, rfl, ht⟩ := normalize_head_ne_paren (by decide) h
  rw [normalize_eq_dot ht]

theorem splitSlashAux_no_slash (cur name : GoString) (h : '/' ∉ name) :
    splitSlashAux cur name = [cur.reverse ++ name] := by
  induction name generalizing cur with
  | nil => simp [splitSlashAux]
  | cons c cs ih =>
    have hc : c ≠ '/' := fun hc => h (by simp [hc])
    have hcs : '/' ∉ cs := fun hh => h (List.mem_cons_of_mem _ hh)
    simp [splitSlashAux, hc, ih _ hcs]

theorem splitSlashAux_append (cur s name : GoString) (h : '/' ∉ name) :
    splitSlashAux cur (s ++ '/' :: name) = splitSlashAux cur s ++ [name] := by
  induction s generalizing cur with
  | nil => simp [splitSlashAux, splitSlashAux_no_slash [] name h]
  | cons c cs ih =>
    by_cases hc : c = '/'
    · simp [splitSlashAux, hc, ih]
    · simp [splitSlashAux, hc, ih]

theorem splitSlashAux_elems (cur s : GoString) (hcur : '/' ∉ cur) :
    ∀ e ∈ splitSlashAux cur s, '/' ∉ e := by
  induction s generalizing cur with
  | nil => simp [splitSlashAux, hcur]
  | cons c cs ih =>
    by_cases hc : c = '/'
    · intro e he
      simp only [splitSlashAux, hc, if_true, List.mem_cons] at he
      rcases he with rfl | he
      · simpa using hcur
      · exact ih [] (by simp) e he
    · intro e he
      simp only [splitSlashAux, hc, if_false] at he
      have hcc : '/' ∉ c :: cur := by
        simp only [List.mem_cons, not_or]
        exact ⟨fun h => hc h.symm, hcur⟩
      exact ih (c :: cur) hcc e he

theorem cleanStep_real (rooted : Bool) (stack : List GoString) (e : GoString)
    (hs : ∀ x ∈ stack, realElem x) (he : '/' ∉ e) :
    ∀ x ∈ cleanStep rooted stack e, realElem x := by
  unfold cleanStep
  by_cases h1 : e = [] ∨ e = ['.']
  · rw [if_pos h1]; exact hs
  · rw [if_neg h1]
    have hreal : realElem e := ⟨fun h => h1 (Or.inl h), fun h => h1 (Or.inr h), he⟩
    by_cases h2 : e = ['.', '.']
    · rw [if_pos h2]
      cases stack with
      | nil =>
        cases rooted
        · intro x hx
          simp only [Bool.false_eq_true, if_false, List.mem_singleton] at hx
          rw [hx]; exact hreal
        · intro x hx
          simp at hx
      | cons top rest =>
        by_cases h3 : top = ['.', '.']
        · simp only [h3, if_true]
          intro x hx
          simp only [List.mem_cons] at hx
          rcases hx with rfl | rfl | hx
          · exact hreal
          · exact h3 ▸ hs top (by simp)
          · exact hs x (by simp [hx])
        · simp only [h3, if_false]
          intro x hx
          exact hs x (by simp [hx])
    · rw [if_neg h2]
      intro x hx
      simp only [List.mem_cons] at hx
      rcases hx with rfl | hx
      · exact hreal
      · exact hs x hx

theorem foldl_cleanStep_real (rooted : Bool) (elems stack : List GoString)
    (hs : ∀ x ∈ stack, realElem x) (he : ∀ e ∈ elems, '/' ∉ e) :
    ∀ x ∈ elems.foldl (cleanStep rooted) stack, realElem x := by
  induction elems generalizing stack with
  | nil => simpa using hs
  | cons e es ih =>
    simp only [List.foldl_cons]
    exact ih _ (cleanStep_real rooted stack e hs (he e (by simp)))
      (fun x hx => he x (List.mem_cons_of_mem _ hx))

theorem joinSlash_append_singleton (l : List GoString) (n : GoString) :
    joinSlash (l ++ [n]) = if l = [] then n else joinSlash l ++ '/' :: n := by
  induction l with
  | nil => simp [joinSlash]
  | cons e es ih =>
    cases es with
    | nil => simp [joinSlash]
    | cons f fs =>
      simp only [List.cons_append, joinSlash] at ih ⊢
      simp [ih]

theorem joinSlash_real_ne (l : List GoString) (hl : l ≠ []) (h : ∀ x ∈ l, realElem x) :
    joinSlash l ≠ [] ∧ joinSlash l ≠ ['.'] ∧ joinSlash l ≠ ['/'] := by
  cases l with
  | nil => exact absurd rfl hl
  | cons e es =>
    obtain ⟨h1, h2, h3⟩ := h e (by simp)
    cases es with
    | nil =>
      simp only [joinSlash]
      exact ⟨h1, h2, fun hh => h3 (by simp [hh])⟩
    | cons f fs =>
      simp only [joinSlash]
      cases e with
      | nil => exact absurd rfl h1
      | cons c cs =>
        refine ⟨by simp, ?_, ?_⟩
        · intro hh
          simp only [List.cons_append, List.cons.injEq] at hh
          have := hh.2
          simp at this
        · intro hh
          simp only [List.cons_append, List.cons.injEq] at hh
          have := hh.2
          simp at this

/-- Joining a directory with one real element puts the element directly
inside the cleaned directory. -/
theorem Join_real (dir name : GoString) (hn : realElem name) (hdd : name ≠ ['.', '.']) :
    Join dir name = childPath (Clean dir) name := by
  obtain ⟨hne, hdot, hslash⟩ := hn
  have hstep : ∀ (r : Bool) (S : List GoString), cleanStep r S name = name :: S := by
    intro r S
    simp [cleanStep, hne, hdot, hdd]
  by_cases hd : dir = []
  · subst hd
    have hhead : ¬ (name.head? = some '/') := by
      cases name with
      | nil => simp
      | cons c cs =>
        simp only [List.head?_cons, Option.some.injEq]
        intro hc
        exact hslash (by simp [hc])
    simp [Join, hne, Clean, childPath, splitSlash, splitSlashAux_no_slash [] name hslash,
      hhead, hstep, joinSlash]
  · have hcat : dir ++ '/' :: name ≠ [] := by simp
    have hhead : (dir ++ '/' :: name).head? = dir.head? := by
      cases dir with
      | nil => exact absurd rfl hd
      | cons c cs => rfl
    have hreal := foldl_cleanStep_real (decide (dir.head? = some '/')) (splitSlash dir) []
      (by simp) (splitSlashAux_elems [] dir (by simp))
    simp only [Join, hd, ne_eq, not_false_eq_true, if_true, Clean, hcat, if_false, hhead,
      splitSlash, splitSlashAux_append [] dir name hslash, List.foldl_append, List.foldl_cons,
      List.foldl_nil, hstep, List.reverse_cons, joinSlash_append_singleton]
    by_cases hr : dir.head? = some '/'
    · simp only [hr, decide_True, if_true]
      by_cases hS : (splitSlash dir).foldl (cleanStep true) [] = []
      · simp [splitSlash] at hS
        simp [hS, childPath, joinSlash]
      · have hS' : ((splitSlashAux [] dir).foldl (cleanStep true) []).reverse ≠ [] := by
          simpa [splitSlash] using hS
        have hj := joinSlash_real_ne _ hS' (by
          intro x hx
          rw [hr] at hreal
          exact hreal x (by simpa [splitSlash] using hx))
        simp [hS', childPath, hj.1]
    · simp only [hr, decide_False, Bool.false_eq_true, if_false]
      by_cases hS : (splitSlash dir).foldl (cleanStep false) [] = []
      · simp [splitSlash] at hS
        simp [hS, childPath]
      · have hS0 : (splitSlashAux [] dir).foldl (cleanStep false) [] ≠ [] := by
          simpa [splitSlash] using hS
        have hS' : ((splitSlashAux [] dir).foldl (cleanStep false) []).reverse ≠ [] := by
          simpa using hS0
        have hj := joinSlash_real_ne _ hS' (by
          intro x hx
          simp only [hr, decide_False] at hreal
          exact hreal x (by simpa [splitSlash] using hx))
        simp [hS0, childPath, hj.2.1, hj.2.2]

/-- For every signature other than the empty string, `.` and `..`, the entry
is the file named by the normal form followed by `.out`, directly inside the
cleaned cache directory. -/
theorem entryPath_inside_dir (dir sig : GoString)
    (h0 : sig ≠ []) (h1 : sig ≠ ['.']) (h2 : sig ≠ ['.', '.']) :
    entryPath dir sig = childPath (Clean dir) (normalize sig) ++ ".out".toList := by
  have hreal : realElem (normalize sig) :=
    ⟨fun h => h0 (normalize_eq_nil h), fun h => h1 (normalize_eq_dot h), normalize_no_slash sig⟩
  rw [entryPath, cacheFile, Join_real dir (normalize sig) hreal
    (fun h => h2 (normalize_eq_dotdot h))]

/-! ## Clear -/

theorem Clear_lock_refused (env : Env) (sig dir : GoString) (lockDuration : Nat)
    (lockP : GoString → Locker) (fs : FS) (l : GoError)
    (hlock : (lockP (normalize sig)).Lock lockDuration lockLabel = some l) :
    Clear env sig dir lockDuration lockP fs =
      ⟨.returned (some l), fs,
        [.lockP (normalize sig), .lock lockDuration lockLabel (some l)]⟩ := by
  simp [Clear, hlock]

theorem Clear_absent (env : Env) (sig dir : GoString) (lockDuration : Nat)
    (lockP : GoString → Locker) (fs : FS)
    (hlock : (lockP (normalize sig)).Lock lockDuration lockLabel = none)
    (hmiss : fileExist env fs (entryPath dir sig) = .returned false) :
    Clear env sig dir lockDuration lockP fs =
      ⟨.returned none, fs,
        [.lockP (normalize sig), .lock lockDuration lockLabel none, .stat (entryPath dir sig),
          .unLock (lockP (normalize sig)).UnLock]⟩ := by
  have hex : fileExist env fs (cacheFile dir (normalize sig)) = .returned false := hmiss
  simp [Clear, hlock, hex, entryPath]

theorem Clear_present (env : Env) (sig dir : GoString) (lockDuration : Nat)
    (lockP : GoString → Locker) (fs : FS)
    (hlock : (lockP (normalize sig)).Lock lockDuration lockLabel = none)
    (hexist : fileExist env fs (entryPath dir sig) = .returned true) :
    Clear env sig dir lockDuration lockP fs =
      ⟨.returned (Remove env fs (entryPath dir sig)).1, (Remove env fs (entryPath dir sig)).2,
        [.lockP (normalize sig), .lock lockDuration lockLabel none, .stat (entryPath dir sig),
          .remove (entryPath dir sig), .unLock (lockP (normalize sig)).UnLock]⟩ := by
  have hex : fileExist env fs (cacheFile dir (normalize sig)) = .returned true := hexist
  simp [Clear, hlock, hex, entryPath]

theorem Clear_check_panics (env : Env) (sig dir : GoString) (lockDuration : Nat)
    (lockP : GoString → Locker) (fs : FS)
    (hlock : (lockP (normalize sig)).Lock lockDuration lockLabel = none)
    (hpanic : fileExist env fs (entryPath dir sig) = .panicked) :
    Clear env sig dir lockDuration lockP fs =
      ⟨.panicked, fs,
        [.lockP (normalize sig), .lock lockDuration lockLabel none, .stat (entryPath dir sig),
          .unLock (lockP (normalize sig)).UnLock]⟩ := by
  have hex : fileExist env fs (cacheFile dir (normalize sig)) = .panicked := hpanic
  simp [Clear, hlock, hex, entryPath]

/-- The existence check aborts exactly when `os.Stat` fails with an error
that is not a not-exist error. -/
theorem fileExist_panicked_iff (env : Env) (fs : FS) (p : GoString) :
    fileExist env fs p = .panicked ↔ env.statFault ≠ none := by
  unfold fileExist Stat
  cases hs : env.statFault with
  | some m => simp [IsNotExist]
  | none =>
    cases hf : fs (Clean p) with
    | none => simp [IsNotExist, errNotExist]
    | some n => cases n <;> simp [IsNotExist]

/-- A successful removal takes the path away and touches no other path. -/
theorem Remove_ok (env : Env) (fs : FS) (p : GoString)
    (h : (Remove env fs p).1 = none) : (Remove env fs p).2 = fs.remove p := by
  unfold Remove at h ⊢
  cases hr : env.removeFault with
  | some e => simp [hr] at h
  | none =>
    cases hf : fs (Clean p) with
    | none => simp [hr, hf] at h
    | some n => simp

/-- What `Clear` does when the existence check returns its boolean `found`:
with the lock acquired and the removal, if the check found an entry,
succeeding, `Clear` returns a nil error; afterwards there is no entry file
for the signature and every other file is as it was, and when no entry was
found the tree is exactly as it was.  When the check aborts instead, none of
this holds. -/
theorem Clear_after_check (env : Env) (sig dir : GoString) (lockDuration : Nat)
    (lockP : GoString → Locker) (fs : FS) (found : Bool)
    (hlock : (lockP (normalize sig)).Lock lockDuration lockLabel = none)
    (hcheck : fileExist env fs (entryPath dir sig) = .returned found)
    (hremove : found = true → (Remove env fs (entryPath dir sig)).1 = none) :
    (Clear env sig dir lockDuration lockP fs).ret = .returned none ∧
    (Clear env sig dir lockDuration lockP fs).fs.fileAt (entryPath dir sig) = none ∧
    (∀ p, Clean p ≠ Clean (entryPath dir sig) →
      (Clear env sig dir lockDuration lockP fs).fs.fileAt p = fs.fileAt p) ∧
    (found = false → (Clear env sig dir lockDuration lockP fs).fs = fs) := by
  cases found with
  | false =>
    rw [Clear_absent env sig dir lockDuration lockP fs hlock hcheck]
    exact ⟨rfl, ((fileExist_false_iff env fs _).mp hcheck).2, fun _ _ => rfl, fun _ => rfl⟩
  | true =>
    have hrm := hremove rfl
    rw [Clear_present env sig dir lockDuration lockP fs hlock hcheck]
    refine ⟨by simp [hrm], ?_, ?_, ?_⟩
    · simp [Remove_ok env fs _ hrm, FS.fileAt, FS.remove]
    · intro p hp
      simp [Remove_ok env fs _ hrm, FS.fileAt, FS.remove, hp]
    · intro h
      exact absurd h (by decide)

/-- C12: when the lock is not acquired and `Lock` returns error `l`, `Clear`
returns exactly `l`; it calls the lock factory and `Lock` and nothing else,
so `UnLock` is not called and no entry is checked or removed, and the tree,
an existing entry for the signature included, is as it was. -/
theorem Clear_lock_failure (env : Env) (sig dir : GoString) (lockDuration : Nat)
    (lockP : GoString → Locker) (fs : FS) (l : GoError)
    (hlock : (lockP (normalize sig)).Lock lockDuration lockLabel = some l) :
    (Clear env sig dir lockDuration lockP fs).ret = .returned (some l) ∧
    (Clear env sig dir lockDuration lockP fs).trace =
      [.lockP (normalize sig), .lock lockDuration lockLabel (some l)] ∧
    (∀ ev ∈ (Clear env sig dir lockDuration lockP fs).trace,
      ev.isUnLock = false ∧ ev.isCacheAccess = false) ∧
    (Clear env sig dir lockDuration lockP fs).fs = fs ∧
    (Clear env sig dir lockDuration lockP fs).fs.fileAt (entryPath dir sig) =
      fs.fileAt (entryPath dir sig) := by
  rw [Clear_lock_refused env sig dir lockDuration lockP fs l hlock]
  refine ⟨rfl, rfl, ?_, rfl, rfl⟩
  intro ev hev
  simp only [List.mem_cons, List.mem_singleton, List.not_mem_nil, or_false] at hev
  rcases hev with rfl | rfl <;> exact ⟨rfl, rfl⟩

/-! ## The lock -/

/-- A predicate that no provisioning event satisfies counts nothing in the
trace of provisioning. -/
theorem countP_provision (env : Env) (dir : GoString) (fs : FS) (p : Event → Bool)
    (hp : ∀ ev, ev.isProvision = true → p ev = false) :
    (mkdirAllRetry env dir fs).trace.countP p = 0 := by
  rw [List.countP_eq_zero]
  intro ev hev
  simp [hp ev (mkdirAllRetry_trace env dir fs ev hev)]

/-- The shape of every run of `Output`: provisioning, then one of six tails. -/
theorem Output_trace_shape (env : Env) (o : Outputter) (sig dir : GoString)
    (lockDuration : Nat) (lockP : GoString → Locker) (fs : FS) :
    ∃ tail, (Output env o sig dir lockDuration lockP fs).trace =
        (mkdirAllRetry env dir fs).trace ++ tail ∧
      (tail = [] ∨
       (∃ l, tail = [.lockP (normalize sig), .lock lockDuration lockLabel (some l), .output]) ∨
       (∃ u, tail = [.lockP (normalize sig), .lock lockDuration lockLabel none,
          .stat (entryPath dir sig), .unLock u]) ∨
       (∃ u, tail = [.lockP (normalize sig), .lock lockDuration lockLabel none,
          .stat (entryPath dir sig), .readFile (entryPath dir sig), .unLock u]) ∨
       (∃ u, tail = [.lockP (normalize sig), .lock lockDuration lockLabel none,
          .stat (entryPath dir sig), .output, .unLock u]) ∨
       (∃ u data, tail = [.lockP (normalize sig), .lock lockDuration lockLabel none,
          .stat (entryPath dir sig), .output, .writeFile (entryPath dir sig) data,
          .unLock u])) := by
  cases hm : (mkdirAllRetry env dir fs).ret with
  | some e =>
    refine ⟨[], ?_, Or.inl rfl⟩
    simp [Output, hm]
  | none =>
    cases hl : (lockP (normalize sig)).Lock lockDuration lockLabel with
    | some l =>
      refine ⟨_, ?_, Or.inr (Or.inl ⟨l, rfl⟩)⟩
      rw [Output_lock_refused env o sig dir lockDuration lockP fs l hm hl]
    | none =>
      cases hfe : fileExist env fs (entryPath dir sig) with
      | panicked =>
        refine ⟨_, ?_, Or.inr (Or.inr (Or.inl ⟨(lockP (normalize sig)).UnLock, rfl⟩))⟩
        rw [Output_check_panics env o sig dir lockDuration lockP fs hm hl hfe]
      | returned found =>
        cases found with
        | true =>
          refine ⟨_, ?_, Or.inr (Or.inr (Or.inr (Or.inl ⟨(lockP (normalize sig)).UnLock, rfl⟩)))⟩
          rw [Output_hit env o sig dir lockDuration lockP fs hm hl hfe]
        | false =>
          cases hc : o.Output.2 with
          | some e =>
            refine ⟨_, ?_, Or.inr (Or.inr (Or.inr (Or.inr (Or.inl ⟨(lockP (normalize sig)).UnLock, rfl⟩))))⟩
            rw [Output_miss_error env o sig dir lockDuration lockP fs e hm hl hfe hc]
          | none =>
            refine ⟨_, ?_, Or.inr (Or.inr (Or.inr (Or.inr (Or.inr ⟨(lockP (normalize sig)).UnLock, o.Output.1, rfl⟩))))⟩
            rw [Output_miss_computed env o sig dir lockDuration lockP fs hm hl hfe hc]

/-- The shape of every run of `Clear`. -/
theorem Clear_trace_shape (env : Env) (sig dir : GoString) (lockDuration : Nat)
    (lockP : GoString → Locker) (fs : FS) :
    (∃ l, (Clear env sig dir lockDuration lockP fs).trace =
        [.lockP (normalize sig), .lock lockDuration lockLabel (some l)]) ∨
    (∃ u, (Clear env sig dir lockDuration lockP fs).trace =
        [.lockP (normalize sig), .lock lockDuration lockLabel none,
          .stat (entryPath dir sig), .unLock u]) ∨
    (∃ u, (Clear env sig dir lockDuration lockP fs).trace =
        [.lockP (normalize sig), .lock lockDuration lockLabel none,
          .stat (entryPath dir sig), .remove (entryPath dir sig), .unLock u]) := by
  cases hl : (lockP (normalize sig)).Lock lockDuration lockLabel with
  | some l =>
    refine Or.inl ⟨l, ?_⟩
    rw [Clear_lock_refused env sig dir lockDuration lockP fs l hl]
  | none =>
    cases hfe : fileExist env fs (entryPath dir sig) with
    | panicked =>
      refine Or.inr (Or.inl ⟨(lockP (normalize sig)).UnLock, ?_⟩)
      rw [Clear_check_panics env sig dir lockDuration lockP fs hl hfe]
    | returned found =>
      cases found with
      | false =>
        refine Or.inr (Or.inl ⟨(lockP (normalize sig)).UnLock, ?_⟩)
        rw [Clear_absent env sig dir lockDuration lockP fs hl hfe]
      | true =>
        refine Or.inr (Or.inr ⟨(lockP (normalize sig)).UnLock, ?_⟩)
        rw [Clear_present env sig dir lockDuration lockP fs hl hfe]

/-- C14: replacing what `UnLock` returns by anything else changes neither
what `Output` returns nor the tree it leaves, and the same holds for `Clear`;
in particular a call that succeeds with one `UnLock` result succeeds with
every other. -/
theorem UnLock_result_ignored (env : Env) (o : Outputter) (sig dir : GoString)
    (lockDuration : Nat) (lockP : GoString → Locker) (u : GoString → Option GoError)
    (fs : FS) :
    (Output env o sig dir lockDuration (withUnLock lockP u) fs).ret =
      (Output env o sig dir lockDuration lockP fs).ret ∧
    (Output env o sig dir lockDuration (withUnLock lockP u) fs).fs =
      (Output env o sig dir lockDuration lockP fs).fs ∧
    (Clear env sig dir lockDuration (withUnLock lockP u) fs).ret =
      (Clear env sig dir lockDuration lockP fs).ret ∧
    (Clear env sig dir lockDuration (withUnLock lockP u) fs).fs =
      (Clear env sig dir lockDuration lockP fs).fs ∧
    (∀ out, (Output env o sig dir lockDuration lockP fs).ret = .returned (out, none) →
      (Output env o sig dir lockDuration (withUnLock lockP u) fs).ret =
        .returned (out, none)) ∧
    ((Clear env sig dir lockDuration lockP fs).ret = .returned none →
      (Clear env sig dir lockDuration (withUnLock lockP u) fs).ret = .returned none) := by
  have hO : (Output env o sig dir lockDuration (withUnLock lockP u) fs).ret =
        (Output env o sig dir lockDuration lockP fs).ret ∧
      (Output env o sig dir lockDuration (withUnLock lockP u) fs).fs =
        (Output env o sig dir lockDuration lockP fs).fs := by
    unfold Output
    simp only [withUnLock]
    cases (mkdirAllRetry env dir fs).ret with
    | some e => exact ⟨rfl, rfl⟩
    | none =>
      simp only
      cases (lockP (normalize sig)).Lock lockDuration lockLabel with
      | some l => exact ⟨rfl, rfl⟩
      | none =>
        simp only
        cases fileExist env (mkdirAllRetry env dir fs).fs (cacheFile dir (normalize sig)) with
        | panicked => exact ⟨rfl, rfl⟩
        | returned found =>
          cases found with
          | true => exact ⟨rfl, rfl⟩
          | false =>
            simp only
            cases o.Output.2 with
            | some e => exact ⟨rfl, rfl⟩
            | none => exact ⟨rfl, rfl⟩
  have hC : (Clear env sig dir lockDuration (withUnLock lockP u) fs).ret =
        (Clear env sig dir lockDuration lockP fs).ret ∧
      (Clear env sig dir lockDuration (withUnLock lockP u) fs).fs =
        (Clear env sig dir lockDuration lockP fs).fs := by
    unfold Clear
    simp only [withUnLock]
    cases (lockP (normalize sig)).Lock lockDuration lockLabel with
    | some l => exact ⟨rfl, rfl⟩
    | none =>
      simp only
      cases fileExist env fs (cacheFile dir (normalize sig)) with
      | panicked => exact ⟨rfl, rfl⟩
      | returned found => cases found <;> exact ⟨rfl, rfl⟩
  exact ⟨hO.1, hO.2, hC.1, hC.2, fun out h => hO.1.trans h, fun h => hC.1.trans h⟩

/-- C16: in every call of `Output`, whatever provisioning, locking, the
existence check, reading, computing and writing do, the computation is
invoked at most once, the lock factory, `Lock` and `UnLock` are each called
at most once, there is at most one existence check and at most one entry read
or write in all, and an entry read and an invocation of the computation do
not both occur. -/
theorem Output_effects_bounded (env : Env) (o : Outputter) (sig dir : GoString)
    (lockDuration : Nat) (lockP : GoString → Locker) (fs : FS) :
    invocations (Output env o sig dir lockDuration lockP fs).trace ≤ 1 ∧
    (Output env o sig dir lockDuration lockP fs).trace.countP Event.isLockP ≤ 1 ∧
    (Output env o sig dir lockDuration lockP fs).trace.countP Event.isLock ≤ 1 ∧
    (Output env o sig dir lockDuration lockP fs).trace.countP Event.isUnLock ≤ 1 ∧
    (Output env o sig dir lockDuration lockP fs).trace.countP Event.isStat ≤ 1 ∧
    (Output env o sig dir lockDuration lockP fs).trace.countP Event.isRead +
      (Output env o sig dir lockDuration lockP fs).trace.countP Event.isWrite ≤ 1 ∧
    ((Output env o sig dir lockDuration lockP fs).trace.countP Event.isRead = 0 ∨
      invocations (Output env o sig dir lockDuration lockP fs).trace = 0) := by
  obtain ⟨tail, ht, hshape⟩ := Output_trace_shape env o sig dir lockDuration lockP fs
  have h1 := countP_provision env dir fs Event.isLockP (by intro ev; cases ev <;> simp [Event.isProvision, Event.isLockP])
  have h2 := countP_provision env dir fs Event.isLock (by intro ev; cases ev <;> simp [Event.isProvision, Event.isLock])
  have h3 := countP_provision env dir fs Event.isUnLock (by intro ev; cases ev <;> simp [Event.isProvision, Event.isUnLock])
  have h4 := countP_provision env dir fs Event.isStat (by intro ev; cases ev <;> simp [Event.isProvision, Event.isStat])
  have h5 := countP_provision env dir fs Event.isRead (by intro ev; cases ev <;> simp [Event.isProvision, Event.isRead])
  have h6 := countP_provision env dir fs Event.isWrite (by intro ev; cases ev <;> simp [Event.isProvision, Event.isWrite])
  rw [ht]
  simp only [invocations_provision, List.countP_append, h1, h2, h3, h4, h5, h6, Nat.zero_add]
  rcases hshape with h | ⟨l, h⟩ | ⟨u, h⟩ | ⟨u, h⟩ | ⟨u, h⟩ | ⟨u, data, h⟩ <;>
    subst h <;>
    simp [invocations, List.countP_cons, Event.isLockP, Event.isLock, Event.isUnLock,
      Event.isStat, Event.isRead, Event.isWrite]

/-- The number of `UnLock` calls of `Output`: one when the directory was
provisioned and `Lock` returned nil, none otherwise. -/
theorem Output_unLock_count (env : Env) (o : Outputter) (sig dir : GoString)
    (lockDuration : Nat) (lockP : GoString → Locker) (fs : FS) :
    (Output env o sig dir lockDuration lockP fs).trace.countP Event.isUnLock =
      if (mkdirAllRetry env dir fs).ret = none ∧
        (lockP (normalize sig)).Lock lockDuration lockLabel = none then 1 else 0 := by
  have h0 := countP_provision env dir fs Event.isUnLock
    (by intro ev; cases ev <;> simp [Event.isProvision, Event.isUnLock])
  cases hm : (mkdirAllRetry env dir fs).ret with
  | some e => simp [Output, hm, h0]
  | none =>
    cases hl : (lockP (normalize sig)).Lock lockDuration lockLabel with
    | some l =>
      rw [Output_lock_refused env o sig dir lockDuration lockP fs l hm hl]
      simp [List.countP_append, h0, List.countP_cons, Event.isUnLock]
    | none =>
      cases hfe : fileExist env fs (entryPath dir sig) with
      | panicked =>
        rw [Output_check_panics env o sig dir lockDuration lockP fs hm hl hfe]
        simp [List.countP_append, h0, List.countP_cons, Event.isUnLock]
      | returned found =>
        cases found with
        | true =>
          rw [Output_hit env o sig dir lockDuration lockP fs hm hl hfe]
          simp [List.countP_append, h0, List.countP_cons, Event.isUnLock]
        | false =>
          cases hc : o.Output.2 with
          | some e =>
            rw [Output_miss_error env o sig dir lockDuration lockP fs e hm hl hfe hc]
            simp [List.countP_append, h0, List.countP_cons, Event.isUnLock]
          | none =>
            rw [Output_miss_computed env o sig dir lockDuration lockP fs hm hl hfe hc]
            simp [List.countP_append, h0, List.countP_cons, Event.isUnLock]

/-- The number of `UnLock` calls of `Clear`: one when `Lock` returned nil,
none otherwise. -/
theorem Clear_unLock_count (env : Env) (sig dir : GoString) (lockDuration : Nat)
    (lockP : GoString → Locker) (fs : FS) :
    (Clear env sig dir lockDuration lockP fs).trace.countP Event.isUnLock =
      if (lockP (normalize sig)).Lock lockDuration lockLabel = none then 1 else 0 := by
  cases hl : (lockP (normalize sig)).Lock lockDuration lockLabel with
  | some l =>
    rw [Clear_lock_refused env sig dir lockDuration lockP fs l hl]
    simp [List.countP_cons, Event.isUnLock]
  | none =>
    cases hfe : fileExist env fs (entryPath dir sig) with
    | panicked =>
      rw [Clear_check_panics env sig dir lockDuration lockP fs hl hfe]
      simp [List.countP_cons, Event.isUnLock]
    | returned found =>
      cases found with
      | false =>
        rw [Clear_absent env sig dir lockDuration lockP fs hl hfe]
        simp [List.countP_cons, Event.isUnLock]
      | true =>
        rw [Clear_present env sig dir lockDuration lockP fs hl hfe]
        simp [List.countP_cons, Event.isUnLock]

/-- The lock discipline of every run of `Output`. -/
theorem Output_lockBracket (env : Env) (o : Outputter) (sig dir : GoString)
    (lockDuration : Nat) (lockP : GoString → Locker) (fs : FS) :
    lockBracket (Output env o sig dir lockDuration lockP fs).trace := by
  obtain ⟨tail, ht, hshape⟩ := Output_trace_shape env o sig dir lockDuration lockP fs
  have hprov := mkdirAllRetry_trace env dir fs
  have hpre : ∀ ev ∈ (mkdirAllRetry env dir fs).trace ++ [Event.lockP (normalize sig)],
      ev.isCritical = false ∧ ev.isLock = false ∧ ev.isUnLock = false := by
    intro ev hev
    simp only [List.mem_append, List.mem_singleton] at hev
    rcases hev with hev | rfl
    · have := hprov ev hev
      cases ev <;> simp_all [Event.isProvision, Event.isCritical, Event.isLock, Event.isUnLock]
    · exact ⟨rfl, rfl, rfl⟩
  have hfree : ∀ ev ∈ (mkdirAllRetry env dir fs).trace,
      ev.isLockOk = false ∧ ev.isUnLock = false := by
    intro ev hev
    have := hprov ev hev
    cases ev <;> simp_all [Event.isProvision, Event.isLockOk, Event.isUnLock]
  rw [ht]
  rcases hshape with h | ⟨l, h⟩ | ⟨u, h⟩ | ⟨u, h⟩ | ⟨u, h⟩ | ⟨u, data, h⟩
  · subst h
    left
    simp only [List.append_nil]
    exact ⟨fun ev hev => (hfree ev hev).1, fun ev hev => (hfree ev hev).2⟩
  · subst h
    left
    constructor
    · intro ev hev
      simp only [List.mem_append, List.mem_cons, List.mem_singleton, List.not_mem_nil,
        or_false] at hev
      rcases hev with hev | rfl | rfl | rfl
      · exact (hfree ev hev).1
      all_goals rfl
    · intro ev hev
      simp only [List.mem_append, List.mem_cons, List.mem_singleton, List.not_mem_nil,
        or_false] at hev
      rcases hev with hev | rfl | rfl | rfl
      · exact (hfree ev hev).2
      all_goals rfl
  · subst h
    right
    refine ⟨_, [.stat (entryPath dir sig)], lockDuration, lockLabel, u, by simp, hpre, ?_⟩
    intro ev hev
    simp only [List.mem_singleton] at hev
    subst hev
    exact ⟨rfl, rfl⟩
  · subst h
    right
    refine ⟨_, [.stat (entryPath dir sig), .readFile (entryPath dir sig)], lockDuration,
      lockLabel, u, by simp, hpre, ?_⟩
    intro ev hev
    simp only [List.mem_cons, List.mem_singleton, List.not_mem_nil, or_false] at hev
    rcases hev with rfl | rfl <;> exact ⟨rfl, rfl⟩
  · subst h
    right
    refine ⟨_, [.stat (entryPath dir sig), .output], lockDuration, lockLabel, u, by simp,
      hpre, ?_⟩
    intro ev hev
    simp only [List.mem_cons, List.mem_singleton, List.not_mem_nil, or_false] at hev
    rcases hev with rfl | rfl <;> exact ⟨rfl, rfl⟩
  · subst h
    right
    refine ⟨_, [.stat (entryPath dir sig), .output, .writeFile (entryPath dir sig) data],
      lockDuration, lockLabel, u, by simp, hpre, ?_⟩
    intro ev hev
    simp only [List.mem_cons, List.mem_singleton, List.not_mem_nil, or_false] at hev
    rcases hev with rfl | rfl | rfl <;> exact ⟨rfl, rfl⟩

/-- The lock discipline of every run of `Clear`. -/
theorem Clear_lockBracket (env : Env) (sig dir : GoString) (lockDuration : Nat)
    (lockP : GoString → Locker) (fs : FS) :
    lockBracket (Clear env sig dir lockDuration lockP fs).trace := by
  rcases Clear_trace_shape env sig dir lockDuration lockP fs with ⟨l, h⟩ | ⟨u, h⟩ | ⟨u, h⟩
  · rw [h]
    left
    constructor <;>
    · intro ev hev
      simp only [List.mem_cons, List.mem_singleton, List.not_mem_nil, or_false] at hev
      rcases hev with rfl | rfl <;> rfl
  · rw [h]
    right
    refine ⟨[.lockP (normalize sig)], [.stat (entryPath dir sig)], lockDuration, lockLabel,
      u, by simp, ?_, ?_⟩
    · intro ev hev
      simp only [List.mem_singleton] at hev
      subst hev
      exact ⟨rfl, rfl, rfl⟩
    · intro ev hev
      simp only [List.mem_singleton] at hev
      subst hev
      exact ⟨rfl, rfl⟩
  · rw [h]
    right
    refine ⟨[.lockP (normalize sig)],
      [.stat (entryPath dir sig), .remove (entryPath dir sig)], lockDuration, lockLabel,
      u, by simp, ?_, ?_⟩
    · intro ev hev
      simp only [List.mem_singleton] at hev
      subst hev
      exact ⟨rfl, rfl, rfl⟩
    · intro ev hev
      simp only [List.mem_cons, List.mem_singleton, List.not_mem_nil, or_false] at hev
      rcases hev with rfl | rfl <;> exact ⟨rfl, rfl⟩

/-- C17: every run of `Output` and every run of `Clear` keeps the lock
discipline.  `UnLock` is called once when `Lock` succeeded and never when it
failed or was not attempted (provisioning failed); when `Lock` succeeded the
`UnLock` is the last event, and every existence check, read, write, removal
and invocation of the computation lies between the successful `Lock` and the
`UnLock`, on every exit, an abort of the existence check included. -/
theorem lock_bracket_kept (env : Env) (o : Outputter) (sig dir : GoString)
    (lockDuration : Nat) (lockP : GoString → Locker) (fs : FS) :
    lockBracket (Output env o sig dir lockDuration lockP fs).trace ∧
    (Output env o sig dir lockDuration lockP fs).trace.countP Event.isUnLock =
      (if (mkdirAllRetry env dir fs).ret = none ∧
        (lockP (normalize sig)).Lock lockDuration lockLabel = none then 1 else 0) ∧
    lockBracket (Clear env sig dir lockDuration lockP fs).trace ∧
    (Clear env sig dir lockDuration lockP fs).trace.countP Event.isUnLock =
      (if (lockP (normalize sig)).Lock lockDuration lockLabel = none then 1 else 0) :=
  ⟨Output_lockBracket env o sig dir lockDuration lockP fs,
    Output_unLock_count env o sig dir lockDuration lockP fs,
    Clear_lockBracket env sig dir lockDuration lockP fs,
    Clear_unLock_count env sig dir lockDuration lockP fs⟩

/-! ## Cleaning a cleaned path -/

theorem Clean_eq_render (path : GoString) (h : path ≠ []) :
    Clean path = render (decide (path.head? = some '/'))
      ((splitSlash path).foldl (cleanStep (decide (path.head? = some '/'))) []) := by
  by_cases hr : path.head? = some '/' <;> simp [Clean, h, hr, render]

theorem wfStack_nil (r : Bool) : wfStack r [] := by
  simp [wfStack, dotsBelow]

theorem cleanStep_wf (r : Bool) (S : List GoString) (e : GoString)
    (hS : wfStack r S) (he : '/' ∉ e) : wfStack r (cleanStep r S e) := by
  obtain ⟨hreal, hroot, hdots⟩ := hS
  unfold cleanStep
  by_cases h1 : e = [] ∨ e = ['.']
  · rw [if_pos h1]; exact ⟨hreal, hroot, hdots⟩
  · rw [if_neg h1]
    have hereal : realElem e := ⟨fun h => h1 (Or.inl h), fun h => h1 (Or.inr h), he⟩
    by_cases h2 : e = ['.', '.']
    · rw [if_pos h2]
      cases S with
      | nil =>
        cases r
        · refine ⟨?_, ?_, ?_⟩
          · intro x hx
            simp only [Bool.false_eq_true, if_false, List.mem_singleton] at hx
            rw [hx]; exact hereal
          · intro hr; exact absurd hr (by decide)
          · simp [dotsBelow]
        · simp only [if_true]
          exact wfStack_nil true
      | cons top rest =>
        by_cases h3 : top = ['.', '.']
        · simp only [h3, if_true]
          refine ⟨?_, ?_, ?_⟩
          · intro x hx
            simp only [List.mem_cons] at hx
            rcases hx with rfl | rfl | hx
            · exact hereal
            · exact h3 ▸ hreal top (by simp)
            · exact hreal x (by simp [hx])
          · intro hr
            exact absurd h3 (hroot hr top (by simp))
          · refine ⟨fun _ x hx => ?_, ?_⟩
            · simp only [List.mem_cons] at hx
              rcases hx with rfl | hx
              · rfl
              · exact hdots.1 h3 x hx
            · rw [← h3]; exact hdots
        · simp only [h3, if_false]
          exact ⟨fun x hx => hreal x (by simp [hx]), fun hr x hx => hroot hr x (by simp [hx]),
            hdots.2⟩
    · rw [if_neg h2]
      refine ⟨?_, ?_, ?_⟩
      · intro x hx
        simp only [List.mem_cons] at hx
        rcases hx with rfl | hx
        · exact hereal
        · exact hreal x hx
      · intro hr x hx
        simp only [List.mem_cons] at hx
        rcases hx with rfl | hx
        · exact h2
        · exact hroot hr x hx
      · exact ⟨fun h => absurd h h2, hdots⟩

theorem foldl_cleanStep_wf (r : Bool) (elems S : List GoString) (hS : wfStack r S)
    (he : ∀ e ∈ elems, '/' ∉ e) : wfStack r (elems.foldl (cleanStep r) S) := by
  induction elems generalizing S with
  | nil => simpa using hS
  | cons e es ih =>
    simp only [List.foldl_cons]
    exact ih _ (cleanStep_wf r S e hS (he e (by simp)))
      (fun x hx => he x (List.mem_cons_of_mem _ hx))

/-- Feeding a stack of `Clean` back to it, bottom first, rebuilds the stack. -/
theorem foldl_cleanStep_replay (r : Bool) (S : List GoString) (hS : wfStack r S) :
    S.reverse.foldl (cleanStep r) [] = S := by
  induction S with
  | nil => rfl
  | cons top rest ih =>
    obtain ⟨hreal, hroot, hdots⟩ := hS
    have hrest : wfStack r rest :=
      ⟨fun x hx => hreal x (by simp [hx]), fun hr x hx => hroot hr x (by simp [hx]), hdots.2⟩
    rw [List.reverse_cons, List.foldl_append, ih hrest]
    simp only [List.foldl_cons, List.foldl_nil]
    obtain ⟨hne, hnd, _⟩ := hreal top (by simp)
    unfold cleanStep
    rw [if_neg (by simp [hne, hnd])]
    by_cases h2 : top = ['.', '.']
    · rw [if_pos h2]
      have hr : r = false := by
        cases r
        · rfl
        · exact absurd h2 (hroot rfl top (by simp))
      cases rest with
      | nil => simp [hr, h2]
      | cons t rs =>
        have ht : t = ['.', '.'] := hdots.1 h2 t (by simp)
        simp [ht, h2]
    · rw [if_neg h2]

theorem splitSlashAux_sep (cur e rest : GoString) (he : '/' ∉ e) :
    splitSlashAux cur (e ++ '/' :: rest) = (cur.reverse ++ e) :: splitSlashAux [] rest := by
  induction e generalizing cur with
  | nil => simp [splitSlashAux]
  | cons c cs ih =>
    have hc : c ≠ '/' := fun hc => he (by simp [hc])
    have hcs : '/' ∉ cs := fun hh => he (List.mem_cons_of_mem _ hh)
    simp [splitSlashAux, hc, ih _ hcs]

theorem splitSlash_joinSlash (L : List GoString) (hL : L ≠ []) (h : ∀ e ∈ L, '/' ∉ e) :
    splitSlash (joinSlash L) = L := by
  induction L with
  | nil => exact absurd rfl hL
  | cons e es ih =>
    cases es with
    | nil =>
      simp only [joinSlash, splitSlash]
      simpa using splitSlashAux_no_slash [] e (h e (by simp))
    | cons f fs =>
      have ih' := ih (by simp) (fun x hx => h x (List.mem_cons_of_mem _ hx))
      simp only [joinSlash, splitSlash] at ih' ⊢
      rw [splitSlashAux_sep [] e _ (h e (by simp)), ih']
      simp

theorem joinSlash_head (L : List GoString) (hL : L ≠ []) (h : ∀ x ∈ L, realElem x) :
    joinSlash L ≠ [] ∧ (joinSlash L).head? ≠ some '/' := by
  cases L with
  | nil => exact absurd rfl hL
  | cons e es =>
    obtain ⟨h1, _, h3⟩ := h e (by simp)
    cases e with
    | nil => exact absurd rfl h1
    | cons c cs =>
      have hc : c ≠ '/' := fun hc => h3 (by simp [hc])
      cases es with
      | nil => simp [joinSlash, hc]
      | cons f fs => simp [joinSlash, hc]

/-- What `Clean` writes out is a path that `Clean` leaves as it is. -/
theorem Clean_render (r : Bool) (S : List GoString) (hS : wfStack r S) :
    Clean (render r S) = render r S := by
  have hslash : ∀ e ∈ S.reverse, '/' ∉ e := fun e he => (hS.1 e (by simpa using he)).2.2
  have hrealrev : ∀ x ∈ S.reverse, realElem x := fun x hx => hS.1 x (by simpa using hx)
  cases r with
  | true =>
    have hne : render true S ≠ [] := by simp [render]
    rw [Clean_eq_render _ hne]
    have hhead : (render true S).head? = some '/' := by simp [render]
    simp only [hhead, decide_True]
    by_cases hnil : S = []
    · subst hnil
      simp [render, joinSlash, splitSlash, splitSlashAux, cleanStep]
    · have hrev : S.reverse ≠ [] := by simpa using hnil
      have hsplit : splitSlash (render true S) = [] :: S.reverse := by
        have := splitSlash_joinSlash S.reverse hrev hslash
        simp only [splitSlash] at this
        simp [render, splitSlash, splitSlashAux, this]
      rw [hsplit]
      simp only [List.foldl_cons]
      have h0 : cleanStep true [] [] = [] := by simp [cleanStep]
      rw [h0, foldl_cleanStep_replay true S hS]
  | false =>
    by_cases hnil : S = []
    · subst hnil
      simp [render]
      decide
    · have hrev : S.reverse ≠ [] := by simpa using hnil
      obtain ⟨hjne, hjhead⟩ := joinSlash_head S.reverse hrev hrealrev
      have hr : render false S = joinSlash S.reverse := by simp [render, hnil]
      rw [hr, Clean_eq_render _ hjne]
      simp only [hjhead, decide_False]
      rw [splitSlash_joinSlash S.reverse hrev hslash, foldl_cleanStep_replay false S hS]
      simp [render, hnil]

/-- Every cleaned path is the writing out of a well-formed stack. -/
theorem Clean_is_render (path : GoString) : ∃ r S, wfStack r S ∧ Clean path = render r S := by
  by_cases h : path = []
  · exact ⟨false, [], wfStack_nil false, by simp [h, Clean, render]⟩
  · exact ⟨_, _, foldl_cleanStep_wf _ (splitSlash path) [] (wfStack_nil _)
      (splitSlashAux_elems [] path (by simp)), Clean_eq_render path h⟩

/-- Go's `Clean` is idempotent. -/
theorem Clean_idem (path : GoString) : Clean (Clean path) = Clean path := by
  obtain ⟨r, S, hS, h⟩ := Clean_is_render path
  rw [h, Clean_render r S hS]

/-! ## Purge -/

theorem childPath_append (d name s : GoString) :
    childPath d name ++ s = childPath d (name ++ s) := by
  unfold childPath
  by_cases h1 : d = ['.']
  · simp [h1]
  · by_cases h2 : d = ['/']
    · simp [h2]
    · simp [h1, h2]

/-- The name of an entry file is a real path element, whatever the signature. -/
theorem entryName_real (sig : GoString) :
    realElem (normalize sig ++ ".out".toList) ∧ normalize sig ++ ".out".toList ≠ ['.', '.'] := by
  have hlen : 4 ≤ (normalize sig ++ ".out".toList).length := by simp
  refine ⟨⟨?_, ?_, ?_⟩, ?_⟩
  · intro h; rw [h] at hlen; simp at hlen
  · intro h; rw [h] at hlen; simp at hlen
  · simp only [List.mem_append, not_or]
    exact ⟨normalize_no_slash sig, by decide⟩
  · intro h; rw [h] at hlen; simp at hlen

/-- Outside the three special signatures, the entry is the join of the
directory and the entry name. -/
theorem entryPath_eq_Join (dir sig : GoString)
    (h0 : sig ≠ []) (h1 : sig ≠ ['.']) (h2 : sig ≠ ['.', '.']) :
    entryPath dir sig = Join dir (normalize sig ++ ".out".toList) := by
  rw [entryPath_inside_dir dir sig h0 h1 h2, childPath_append,
    Join_real dir _ (entryName_real sig).1 (entryName_real sig).2]

theorem Clean_Join (a b : GoString) (hb : b ≠ []) : Clean (Join a b) = Join a b := by
  unfold Join
  by_cases ha : a = []
  · simp [ha, hb, Clean_idem]
  · simp [ha, Clean_idem]

/-- Outside the three special signatures, the entry path is a cleaned path. -/
theorem Clean_entryPath (dir sig : GoString)
    (h0 : sig ≠ []) (h1 : sig ≠ ['.']) (h2 : sig ≠ ['.', '.']) :
    Clean (entryPath dir sig) = entryPath dir sig := by
  rw [entryPath_eq_Join dir sig h0 h1 h2]
  exact Clean_Join dir _ (entryName_real sig).1.1

/-- A child of a directory lies below it. -/
theorem isUnder_childPath (d name : GoString) (hn : realElem name)
    (hdd : name ≠ ['.', '.']) : isUnder d (childPath d name) = true := by
  obtain ⟨hne, hdot, hslash⟩ := hn
  unfold isUnder childPath
  by_cases h1 : d = ['.']
  · have hhead : name.head? ≠ some '/' := by
      cases name with
      | nil => simp
      | cons c cs =>
        simp only [List.head?_cons, ne_eq, Option.some.injEq]
        intro hc
        exact hslash (by simp [hc])
    have htake : name.takeWhile (fun c => c != '/') = name := by
      rw [List.takeWhile_eq_self_iff]
      intro c hc
      simp only [bne_iff_ne, ne_eq]
      intro h
      exact hslash (h ▸ hc)
    simp [h1, htake, hne, hdot, hdd, hhead]
  · by_cases h2 : d = ['/']
    · simp [h2, hne]
    · simp [h1, h2]

/-- Outside the three special signatures, the entry lies below the cleaned
cache directory. -/
theorem entryPath_under_dir (dir sig : GoString)
    (h0 : sig ≠ []) (h1 : sig ≠ ['.']) (h2 : sig ≠ ['.', '.']) :
    isUnder (Clean dir) (entryPath dir sig) = true := by
  rw [entryPath_inside_dir dir sig h0 h1 h2, childPath_append]
  exact isUnder_childPath _ _ (entryName_real sig).1 (entryName_real sig).2

/-- A call that finds no entry, with the directory provisioned and an
existence check that reads the tree, invokes the computation once, whether
or not the lock is acquired. -/
theorem Output_computes_of_absent (env : Env) (o : Outputter) (sig dir : GoString)
    (lockDuration : Nat) (lockP : GoString → Locker) (fs : FS)
    (hprov : (mkdirAllRetry env dir fs).ret = none)
    (hstat : env.statFault = none)
    (habsent : fs.fileAt (entryPath dir sig) = none) :
    invocations (Output env o sig dir lockDuration lockP fs).trace = 1 := by
  have hmiss : fileExist env fs (entryPath dir sig) = .returned false :=
    (fileExist_false_iff env fs _).mpr ⟨hstat, habsent⟩
  cases hl : (lockP (normalize sig)).Lock lockDuration lockLabel with
  | some l =>
    rw [Output_lock_refused env o sig dir lockDuration lockP fs l hprov hl,
      invocations_provision]
    simp [invocations]
  | none =>
    cases hc : o.Output.2 with
    | some e =>
      rw [Output_miss_error env o sig dir lockDuration lockP fs e hprov hl hmiss hc,
        invocations_provision]
      simp [invocations]
    | none =>
      rw [Output_miss_computed env o sig dir lockDuration lockP fs hprov hl hmiss hc,
        invocations_provision]
      simp [invocations]

/-- C13, as the code has it: for a directory whose final element is not `.`,
when the recursive removal meets no error, `Purge` returns a nil error
whatever the tree holds (nothing, an empty directory, a populated one); when
the directory is moreover not the empty path, afterwards neither the
directory nor any path below it exists and every other path is as it was, so
the entry of every signature other than the empty string, `.` and `..` is
gone and a following `Output` for it, with the directory provisioned and an
existence check that reads the tree, invokes its computation. -/
theorem Purge_removes_all (env : Env) (dir : GoString) (fs : FS)
    (hdot : endsWithDot dir = false) (hrm : env.removeAllFault = none) :
    (Purge env dir fs).ret = none ∧
    (dir ≠ [] →
      (∀ p, (p = Clean dir ∨ isUnder (Clean dir) p = true) → (Purge env dir fs).fs p = none) ∧
      (∀ p, ¬ (p = Clean dir ∨ isUnder (Clean dir) p = true) →
        (Purge env dir fs).fs p = fs p) ∧
      (∀ sig, sig ≠ [] → sig ≠ ['.'] → sig ≠ ['.', '.'] →
        (Purge env dir fs).fs.fileAt (entryPath dir sig) = none ∧
        ∀ (env2 : Env) (o2 : Outputter) (d2 : Nat) (lockP2 : GoString → Locker),
          (mkdirAllRetry env2 dir (Purge env dir fs).fs).ret = none →
          env2.statFault = none →
          invocations (Output env2 o2 sig dir d2 lockP2 (Purge env dir fs).fs).trace = 1)) := by
  constructor
  · by_cases hd : dir = []
    · simp [Purge, RemoveAll, hd]
    · simp [Purge, RemoveAll, hd, hdot, hrm]
  · intro hd
    have hfs : (Purge env dir fs).fs = fs.removeAll dir := by
      simp [Purge, RemoveAll, hd, hdot, hrm]
    rw [hfs]
    refine ⟨?_, ?_, ?_⟩
    · intro p hp
      simp [FS.removeAll, hp]
    · intro p hp
      simp [FS.removeAll, hp]
    · intro sig h0 h1 h2
      have hgone : (fs.removeAll dir).fileAt (entryPath dir sig) = none := by
        simp [FS.fileAt, FS.removeAll, Clean_entryPath dir sig h0 h1 h2,
          entryPath_under_dir dir sig h0 h1 h2]
      refine ⟨hgone, ?_⟩
      intro env2 o2 d2 lockP2 hprov2 hstat2
      exact Output_computes_of_absent env2 o2 sig dir d2 lockP2 _ hprov2 hstat2 hgone

/-! ## The program at concrete inputs -/

/-- Injectivity applies to the signature `a/b`, which holds no token. -/
theorem normalize_injective_witness :
    ¬ slashToken <:+: "a/b".toList ∧ ¬ slashToken <:+: "a/b".toList ∧
    normalize "a/b".toList = normalize "a/b".toList ∧ "a/b".toList = "a/b".toList :=
  ⟨by decide, by decide, rfl,
    normalize_injective "a/b".toList "a/b".toList (by decide) (by decide) rfl⟩

/-- Three failed attempts to create `/T`: the call returns the last error. -/
theorem Output_provisioning_failure_witness :
    (∀ i, i < mkdirAllMaxRetries → envMkdirFails.mkdirAllErr i ≠ none) ∧
    envMkdirFails.mkdirAllErr 2 = some ⟨"fail after retries", false⟩ ∧
    (Output envMkdirFails (mockOutputter (some "v1".toList) none) "k1".toList "/T".toList 1
        lockerP emptyFS).ret = .returned (none, some ⟨"fail after retries", false⟩) :=
  ⟨fun _ _ => by simp [envMkdirFails], rfl,
    (Output_provisioning_failure envMkdirFails (mockOutputter (some "v1".toList) none)
      "k1".toList "/T".toList 1 lockerP emptyFS ⟨"fail after retries", false⟩
      (fun _ _ => by simp [envMkdirFails]) rfl).1⟩

/-- The scenario of the tests: after a call that computes `v1` for `k1`, a call
whose computation would return `v2` returns `v1`. -/
theorem Output_cache_hit_witness :
    (Output Env.ok (mockOutputter (some "v1".toList) none) "k1".toList "/T".toList 1
        lockerP emptyFS).ret = .returned (some "v1".toList, none) ∧
    (Output Env.ok (mockOutputter (some "v2".toList) none) "k1".toList "/T".toList 1 lockerP
        (Output Env.ok (mockOutputter (some "v1".toList) none) "k1".toList "/T".toList 1
          lockerP emptyFS).fs).ret = .returned (some "v1".toList, none) :=
  ⟨by decide,
    (Output_cache_hit Env.ok Env.ok (mockOutputter (some "v1".toList) none)
      (mockOutputter (some "v2".toList) none) "k1".toList "/T".toList 1 1 lockerP lockerP
      emptyFS (some "v1".toList) (by decide) (by decide) (by decide) (by decide) (by decide)
      rfl rfl).1⟩

/-- A first call for `k1` in `/T` returns `v1` and stores it in `/T/k1.out`. -/
theorem Output_miss_persists_witness :
    fileExist Env.ok emptyFS (entryPath "/T".toList "k1".toList) = .returned false ∧
    (Output Env.ok (mockOutputter (some "v1".toList) none) "k1".toList "/T".toList 1
        lockerP emptyFS).ret = .returned (some "v1".toList, none) ∧
    (Output Env.ok (mockOutputter (some "v1".toList) none) "k1".toList "/T".toList 1
        lockerP emptyFS).fs.fileAt "/T/k1.out".toList = some "v1".toList :=
  ⟨by decide,
    (Output_miss_persists Env.ok (mockOutputter (some "v1".toList) none) "k1".toList
      "/T".toList 1 lockerP emptyFS (some "v1".toList) (by decide) (by decide) (by decide) rfl
      (by decide)).1,
    by decide⟩

/-- With the failing lock factory of the tests the computed bytes are returned. -/
theorem Output_lock_failure_witness :
    (lockerPFailLock (normalize "k1".toList)).Lock 1 lockLabel = some ⟨"lock error", false⟩ ∧
    (Output Env.ok (mockOutputter (some "v1".toList) none) "k1".toList "/T".toList 1
        lockerPFailLock emptyFS).ret = .returned (some "v1".toList, none) :=
  ⟨rfl,
    (Output_lock_failure Env.ok (mockOutputter (some "v1".toList) none) "k1".toList
      "/T".toList 1 lockerPFailLock emptyFS ⟨"lock error", false⟩ (by decide) rfl).1⟩

/-- A computation that fails with `boom` makes the call fail with `boom`. -/
theorem Output_computation_error_witness :
    fileExist Env.ok emptyFS (entryPath "/T".toList "k2".toList) = .returned false ∧
    (Output Env.ok (mockOutputter (some []) (some ⟨"boom", false⟩)) "k2".toList "/T".toList 1
        lockerP emptyFS).ret = .returned (none, some ⟨"boom", false⟩) :=
  ⟨by decide,
    (Output_computation_error Env.ok (mockOutputter (some []) (some ⟨"boom", false⟩))
      "k2".toList "/T".toList 1 lockerP emptyFS ⟨"boom", false⟩ (by decide) (by decide)
      (by decide) rfl).1⟩

/-- A full disk: the call returns the bytes `v1` and the write error. -/
theorem Output_write_failure_witness :
    (WriteFile envWriteFails (emptyFS.mkdirAll "/T".toList) (entryPath "/T".toList "k1".toList)
        (some "v1".toList)).1 = some ⟨"no space left on device", false⟩ ∧
    (Output envWriteFails (mockOutputter (some "v1".toList) none) "k1".toList "/T".toList 1
        lockerP emptyFS).ret =
      .returned (some "v1".toList, some ⟨"no space left on device", false⟩) :=
  ⟨by decide,
    Output_write_failure envWriteFails (mockOutputter (some "v1".toList) none) "k1".toList
      "/T".toList 1 lockerP emptyFS ⟨"no space left on device", false⟩ (by decide) (by decide)
      (by decide) rfl (by decide)⟩

/-- C5 as stated fails: with the lock acquired, no entry, a computation that
returns the bytes `v1` with a nil error and a write that fails, `Output`
returns the write error together with the bytes `v1`, not with nil bytes. -/
theorem Output_write_failure_keeps_bytes :
    (mkdirAllRetry envWriteFails "/T".toList emptyFS).ret = none ∧
    (lockerP (normalize "k1".toList)).Lock 1 lockLabel = none ∧
    fileExist envWriteFails emptyFS (entryPath "/T".toList "k1".toList) = .returned false ∧
    (WriteFile envWriteFails (emptyFS.mkdirAll "/T".toList) (entryPath "/T".toList "k1".toList)
        (some "v1".toList)).1 = some ⟨"no space left on device", false⟩ ∧
    (Output envWriteFails (mockOutputter (some "v1".toList) none) "k1".toList "/T".toList 1
        lockerP emptyFS).ret ≠ .returned (none, some ⟨"no space left on device", false⟩) := by
  decide

/-- An entry that cannot be read: the call fails with the read error. -/
theorem Output_read_failure_witness :
    fileExist envReadFails (emptyFS.write "/T/k1.out".toList "v1".toList)
        (entryPath "/T".toList "k1".toList) = .returned true ∧
    (Output envReadFails (mockOutputter (some "v2".toList) none) "k1".toList "/T".toList 1
        lockerP (emptyFS.write "/T/k1.out".toList "v1".toList)).ret =
      .returned (none, some ⟨"input/output error", false⟩) :=
  ⟨by decide,
    (Output_read_failure envReadFails (mockOutputter (some "v2".toList) none) "k1".toList
      "/T".toList 1 lockerP (emptyFS.write "/T/k1.out".toList "v1".toList)
      ⟨"input/output error", false⟩ (by decide) (by decide) (by decide) (by decide)).1⟩

/-- C6 fails at the signatures `..`, the empty string and `.`: in directory
`/tmp/cache` the entry of `..` is `/tmp.out`, in the root, and the entries of
the empty signature and of `.` are both `/tmp/cache.out`, beside the cache
directory and not inside it; the parent is not the cache directory and the
last segment is not the normal form followed by `.out`.  `Output` writes the
computed bytes there. -/
theorem entryPath_outside_dir :
    entryPath "/tmp/cache".toList "..".toList = "/tmp.out".toList ∧
    Dir (entryPath "/tmp/cache".toList "..".toList) = "/".toList ∧
    Base (entryPath "/tmp/cache".toList "..".toList) = "tmp.out".toList ∧
    Dir (entryPath "/tmp/cache".toList "..".toList) ≠ Clean "/tmp/cache".toList ∧
    Base (entryPath "/tmp/cache".toList "..".toList) ≠ normalize "..".toList ++ ".out".toList ∧
    entryPath "/tmp/cache".toList [] = "/tmp/cache.out".toList ∧
    entryPath "/tmp/cache".toList ".".toList = "/tmp/cache.out".toList ∧
    Dir (entryPath "/tmp/cache".toList []) = "/tmp".toList ∧
    Base (entryPath "/tmp/cache".toList []) = "cache.out".toList ∧
    (Output Env.ok (mockOutputter (some "v1".toList) none) "..".toList "/tmp/cache".toList 1
        lockerP emptyFS).fs.fileAt "/tmp.out".toList = some "v1".toList := by
  decide

/-! ## Clear, Purge and the existence check at concrete inputs -/

/-- C18: the signatures `a/b` and `a(slash)b` are distinct, the first holds a
separator and the second the escape token, and they have the same normal form
and so the same entry path in every directory; after a call of `Output` for
the first that computes and stores bytes, a call for the second with the lock
acquired returns those bytes and does not invoke its own computation,
whatever it would return. -/
theorem normalize_collision :
    ∃ s1 s2 : GoString, s1 ≠ s2 ∧ '/' ∈ s1 ∧ slashToken <:+: s2 ∧
      normalize s1 = normalize s2 ∧
      (∀ dir, entryPath dir s1 = entryPath dir s2) ∧
      ∀ (b1 : Bytes) (o2 : Outputter),
        (Output Env.ok (mockOutputter (some b1) none) s1 "/T".toList 1 lockerP emptyFS).ret =
          .returned (some b1, none) ∧
        (Output Env.ok o2 s2 "/T".toList 1 lockerP
          (Output Env.ok (mockOutputter (some b1) none) s1 "/T".toList 1 lockerP
            emptyFS).fs).ret = .returned (some b1, none) ∧
        invocations (Output Env.ok o2 s2 "/T".toList 1 lockerP
          (Output Env.ok (mockOutputter (some b1) none) s1 "/T".toList 1 lockerP
            emptyFS).fs).trace = 0 := by
  have hn : normalize "a/b".toList = normalize "a(slash)b".toList := by decide
  have hpath : ∀ dir, entryPath dir "a/b".toList = entryPath dir "a(slash)b".toList := by
    intro dir
    simp only [entryPath, hn]
  refine ⟨"a/b".toList, "a(slash)b".toList, by decide, by decide, by decide, hn, hpath, ?_⟩
  intro b1 o2
  have hmiss : fileExist Env.ok emptyFS (entryPath "/T".toList "a/b".toList) =
      .returned false := by decide
  have hfree : (emptyFS.mkdirAll "/T".toList) (Clean (entryPath "/T".toList "a/b".toList)) =
      none := by decide
  have hwrite : (WriteFile Env.ok (emptyFS.mkdirAll "/T".toList)
      (entryPath "/T".toList "a/b".toList) (some b1)).1 = none := by
    unfold WriteFile
    simp only [Env.ok]
    rw [hfree]
  have hfirst := Output_miss_computed Env.ok (mockOutputter (some b1) none) "a/b".toList
    "/T".toList 1 lockerP emptyFS (by decide) (by decide) hmiss rfl
  have hfs := WriteFile_ok Env.ok (emptyFS.mkdirAll "/T".toList)
    (entryPath "/T".toList "a/b".toList) (some b1) hwrite
  rw [hfirst]
  simp only [mockOutputter, hwrite, hfs, Option.getD_some, true_and]
  exact Output_returns_entry Env.ok o2 "a(slash)b".toList "/T".toList 1 lockerP _ b1
    (by simp [mkdirAllRetry_eq, Env.ok]) (by decide) rfl rfl (by rw [← hpath]; simp [FS.write])

/-- C11 fails when `os.Stat` returns an error that is not a not-exist error.
With the cache directory `/etc/hostname`, a regular file, the lock is
acquired, there is no entry for `k1` and no removal is attempted, and `Clear`
aborts inside the existence check where the claim says it returns a nil
error; the same happens in directory `/T` for a signature of 300 bytes,
whose entry name is too long. -/
theorem Clear_aborts_on_stat_error :
    (lockerP (normalize "k1".toList)).Lock 1 lockLabel = none ∧
    hostnameFS.fileAt (entryPath "/etc/hostname".toList "k1".toList) = none ∧
    (Clear envNotDir "k1".toList "/etc/hostname".toList 1 lockerP hostnameFS).ret =
      .panicked ∧
    (Clear envNotDir "k1".toList "/etc/hostname".toList 1 lockerP hostnameFS).ret ≠
      .returned none ∧
    (Clear envNotDir "k1".toList "/etc/hostname".toList 1 lockerP hostnameFS).trace =
      [.lockP "k1".toList, .lock 1 lockLabel none, .stat "/etc/hostname/k1.out".toList,
        .unLock none] ∧
    (lockerP (normalize longSig)).Lock 1 lockLabel = none ∧
    emptyFS.fileAt (entryPath "/T".toList longSig) = none ∧
    (Clear envNameTooLong longSig "/T".toList 1 lockerP emptyFS).ret = .panicked ∧
    (Clear envNameTooLong longSig "/T".toList 1 lockerP emptyFS).ret ≠ .returned none ∧
    (∀ ev ∈ (Clear envNameTooLong longSig "/T".toList 1 lockerP emptyFS).trace,
      ev.isMutation = false) := by
  decide

/-- The behaviour of `Clear` after a check that returns, on a tree that holds
the entry of `k1` and on a tree that holds nothing. -/
theorem Clear_after_check_example :
    fileExist Env.ok (emptyFS.write "/T/k1.out".toList "v1".toList)
        (entryPath "/T".toList "k1".toList) = .returned true ∧
    (Clear Env.ok "k1".toList "/T".toList 1 lockerP
        (emptyFS.write "/T/k1.out".toList "v1".toList)).ret = .returned none ∧
    (Clear Env.ok "k1".toList "/T".toList 1 lockerP
        (emptyFS.write "/T/k1.out".toList "v1".toList)).fs.fileAt "/T/k1.out".toList = none ∧
    (Clear Env.ok "k1".toList "/T".toList 1 lockerP emptyFS).ret = .returned none :=
  ⟨by decide,
    (Clear_after_check Env.ok "k1".toList "/T".toList 1 lockerP
      (emptyFS.write "/T/k1.out".toList "v1".toList) true (by decide) (by decide)
      (fun _ => by decide)).1,
    by decide, by decide⟩

/-- With the failing lock factory of the tests `Clear` returns the lock error
and the entry stays. -/
theorem Clear_lock_failure_witness :
    (lockerPFailLock (normalize "k1".toList)).Lock 1 lockLabel = some ⟨"lock error", false⟩ ∧
    (Clear Env.ok "k1".toList "/T".toList 1 lockerPFailLock
        (emptyFS.write "/T/k1.out".toList "v1".toList)).ret =
      .returned (some ⟨"lock error", false⟩) ∧
    (Clear Env.ok "k1".toList "/T".toList 1 lockerPFailLock
        (emptyFS.write "/T/k1.out".toList "v1".toList)).fs.fileAt "/T/k1.out".toList =
      some "v1".toList :=
  ⟨rfl,
    (Clear_lock_failure Env.ok "k1".toList "/T".toList 1 lockerPFailLock
      (emptyFS.write "/T/k1.out".toList "v1".toList) ⟨"lock error", false⟩ rfl).1,
    by decide⟩

/-- The test `purge populated cache`: after three calls of `Output` in `/T`,
`Purge` succeeds, the directory and the entries are gone, and a call for a
cached signature computes again. -/
theorem Purge_removes_all_witness :
    endsWithDot "/T".toList = false ∧ Env.ok.removeAllFault = none ∧
    (Purge Env.ok "/T".toList
      (Output Env.ok (mockOutputter (some "v3".toList) none) "k3".toList "/T".toList 1 lockerP
        (Output Env.ok (mockOutputter (some "v2".toList) none) "k2".toList "/T".toList 1 lockerP
          (Output Env.ok (mockOutputter (some "v1".toList) none) "k1".toList "/T".toList 1
            lockerP emptyFS).fs).fs).fs).ret = none ∧
    (Purge Env.ok "/T".toList
      (Output Env.ok (mockOutputter (some "v3".toList) none) "k3".toList "/T".toList 1 lockerP
        (Output Env.ok (mockOutputter (some "v2".toList) none) "k2".toList "/T".toList 1 lockerP
          (Output Env.ok (mockOutputter (some "v1".toList) none) "k1".toList "/T".toList 1
            lockerP emptyFS).fs).fs).fs).fs "/T".toList = none ∧
    (Output Env.ok (mockOutputter (some "w1".toList) none) "k1".toList "/T".toList 1 lockerP
      (Purge Env.ok "/T".toList
        (Output Env.ok (mockOutputter (some "v3".toList) none) "k3".toList "/T".toList 1
          lockerP
          (Output Env.ok (mockOutputter (some "v2".toList) none) "k2".toList "/T".toList 1
            lockerP
            (Output Env.ok (mockOutputter (some "v1".toList) none) "k1".toList "/T".toList 1
              lockerP emptyFS).fs).fs).fs).fs).ret = .returned (some "w1".toList, none) :=
  ⟨by decide, rfl,
    (Purge_removes_all Env.ok "/T".toList _ (by decide) rfl).1,
    by decide, by decide⟩

/-- C13 as stated fails.  `Purge` of the directory `.` returns an error even
on a tree that holds nothing, because `os.RemoveAll` refuses a path whose
final element is `.`.  And after `Output` has cached `v1` for the signature
`..` in `/tmp/cache`, `Purge` of `/tmp/cache` succeeds and leaves the entry
`/tmp.out`, so a following `Output` for `..` returns `v1` and does not invoke
its computation. -/
theorem Purge_leaves_outside_entry :
    (Purge Env.ok ".".toList emptyFS).ret = some errInvalid ∧
    (Output Env.ok (mockOutputter (some "v1".toList) none) "..".toList "/tmp/cache".toList 1
        lockerP emptyFS).ret = .returned (some "v1".toList, none) ∧
    (Purge Env.ok "/tmp/cache".toList
      (Output Env.ok (mockOutputter (some "v1".toList) none) "..".toList "/tmp/cache".toList 1
        lockerP emptyFS).fs).ret = none ∧
    (Purge Env.ok "/tmp/cache".toList
      (Output Env.ok (mockOutputter (some "v1".toList) none) "..".toList "/tmp/cache".toList 1
        lockerP emptyFS).fs).fs.fileAt "/tmp.out".toList = some "v1".toList ∧
    (Output Env.ok (mockOutputter (some "v2".toList) none) "..".toList "/tmp/cache".toList 1
      lockerP
      (Purge Env.ok "/tmp/cache".toList
        (Output Env.ok (mockOutputter (some "v1".toList) none) "..".toList
          "/tmp/cache".toList 1 lockerP emptyFS).fs).fs).ret =
      .returned (some "v1".toList, none) ∧
    invocations (Output Env.ok (mockOutputter (some "v2".toList) none) "..".toList
      "/tmp/cache".toList 1 lockerP
      (Purge Env.ok "/tmp/cache".toList
        (Output Env.ok (mockOutputter (some "v1".toList) none) "..".toList
          "/tmp/cache".toList 1 lockerP emptyFS).fs).fs).trace = 0 := by
  decide

/-- C19 fails when `os.Stat` returns an error that is not a not-exist error:
`fileExist` then dereferences the absent file info and aborts, and with it
`Output` and `Clear`.  On the other three outcomes of `os.Stat` it returns
the boolean the claim says: true for a regular file, false for a directory
and false for a path that does not exist. -/
theorem fileExist_aborts_on_stat_error :
    fileExist envStatFails emptyFS "/T/k1.out".toList = .panicked ∧
    (Output envStatFails (mockOutputter (some "v1".toList) none) "k1".toList "/T".toList 1
        lockerP emptyFS).ret = .panicked ∧
    (Clear envStatFails "k1".toList "/T".toList 1 lockerP emptyFS).ret = .panicked ∧
    fileExist Env.ok (emptyFS.write "/T/k1.out".toList "v1".toList) "/T/k1.out".toList =
      .returned true ∧
    fileExist Env.ok (emptyFS.mkdirAll "/T".toList) "/T".toList = .returned false ∧
    fileExist Env.ok emptyFS "/T/k1.out".toList = .returned false := by
  decide

/-- A write that fails after truncating leaves an empty entry: the call
returns the computed bytes with the write error, and the next call finds the
empty entry and returns it without invoking its computation. -/
theorem Output_after_truncating_write :
    (Output envWriteTruncates (mockOutputter (some "v1".toList) none) "k1".toList "/T".toList 1
        lockerP emptyFS).ret =
      .returned (some "v1".toList, some ⟨"no space left on device", false⟩) ∧
    (Output envWriteTruncates (mockOutputter (some "v1".toList) none) "k1".toList "/T".toList 1
        lockerP emptyFS).fs.fileAt "/T/k1.out".toList = some [] ∧
    (Output Env.ok (mockOutputter (some "v2".toList) none) "k1".toList "/T".toList 1 lockerP
      (Output envWriteTruncates (mockOutputter (some "v1".toList) none) "k1".toList
        "/T".toList 1 lockerP emptyFS).fs).ret = .returned (some [], none) ∧
    invocations (Output Env.ok (mockOutputter (some "v2".toList) none) "k1".toList
      "/T".toList 1 lockerP
      (Output envWriteTruncates (mockOutputter (some "v1".toList) none) "k1".toList
        "/T".toList 1 lockerP emptyFS).fs).trace = 0 := by
  decide

end Fcache
